import Mathlib

/-!
Verification development for the proxy-fleet control plane (pia).

The definitions below are a shallow embedding of the TypeScript sources:
the registry of proxy records and its port allocator (src/registry.ts
variants), the container lifecycle manager (src/docker.ts variants), the
reconciler, and the health prober / auto-heal loop (src/health.ts
variants).  External effects (the container runtime, network probes,
randomUUID, wall-clock time) are modelled as explicit oracle parameters;
registry state is threaded explicitly.  Two rotate variants appear in the
sources and both are embedded: Pia.rotateProxy follows src/docker.ts
(recreate without port reuse, old record kept) and Pia.V8.rotateProxy
follows the variant that passes the stored port and retires the old id.
-/

namespace Pia

/-- One persisted proxy record, mirroring the ProxyRecord interface in
src/types.ts.  createdAt is the millisecond timestamp of the ISO string. -/
structure ProxyRecord where
  id : String
  containerId : String
  port : Nat
  country : Option String
  city : Option String
  exitIp : Option String
  healthy : Bool
  restarts : Nat
  createdAt : Nat
  notes : Option String
deriving Repr, DecidableEq

/-- The registry content: the values of the id-keyed Map in
src/registry.ts, in insertion order. -/
abbrev Registry := List ProxyRecord

/-- Registry.get: lookup by id (Map.get keyed on record id). -/
def regGet (reg : Registry) (id : String) : Option ProxyRecord :=
  reg.find? (fun p => p.id == id)

/-- Registry.add: Map.set keyed by id — replaces an existing entry with
the same id in place, otherwise appends. -/
def regAdd (reg : Registry) (p : ProxyRecord) : Registry :=
  if reg.any (fun q => q.id == p.id) then
    reg.map (fun q => if q.id == p.id then p else q)
  else
    reg ++ [p]

/-- Registry.remove: Map.delete keyed by id. -/
def regRemove (reg : Registry) (id : String) : Registry :=
  reg.filter (fun p => p.id != id)

/-- Registry.update: merge partial fields into the record with the given
id; no-op when the id is absent.  The partial-field object of each call
site is passed as the field transformer f. -/
def regUpdate (reg : Registry) (id : String) (f : ProxyRecord → ProxyRecord) :
    Registry :=
  match regGet reg id with
  | none => reg
  | some _ => reg.map (fun q => if q.id == id then f q else q)

/-- Registry.list: records sorted newest-first by createdAt. -/
def regList (reg : Registry) : List ProxyRecord :=
  reg.mergeSort (fun a b => b.createdAt ≤ a.createdAt)

/-- Registry.getUsedPorts restricted to the registry itself (the
part_006 variant; the part_005 variant additionally unions ports read
from runtime labels, which callers can fold into the used list). -/
def getUsedPorts (reg : Registry) : List Nat :=
  reg.map (fun p => p.port)

/-- Static configuration relevant to the embedded operations. -/
structure Config where
  portRangeStart : Nat
  portRangeEnd : Nat
  piaUsername : Option String
  piaPassword : Option String
  defaultCountry : Option String
  defaultCity : Option String
deriving Repr, DecidableEq

/-- Registry.allocatePort from the part_006 variant: scan the
configured range ascending and return the first port in neither the
used set nor the exclusion set; none models the PortExhausted throw. -/
def allocatePort (cfg : Config) (reg : Registry) (exclude : List Nat) :
    Option Nat :=
  (List.range' cfg.portRangeStart (cfg.portRangeEnd + 1 - cfg.portRangeStart)).find?
    (fun port => !(getUsedPorts reg).contains port && !exclude.contains port)

namespace V5

/-- Registry.getUsedPorts from the part_005 variant: the registry's
ports plus the ports parsed from the proxyfarm.port labels of the
runtime's proxyfarm-labeled containers.  runtimePorts is the list of
label ports the runtime reports; when the runtime cannot be queried
the catch branch makes it empty and only registry ports remain. -/
def getUsedPorts (reg : Registry) (runtimePorts : List Nat) : List Nat :=
  Pia.getUsedPorts reg ++ runtimePorts

/-- Registry.allocatePort from the part_005 variant: the same ascending
scan, but against the registry-plus-runtime used set. -/
def allocatePort (cfg : Config) (reg : Registry) (runtimePorts : List Nat)
    (exclude : List Nat) : Option Nat :=
  (List.range' cfg.portRangeStart (cfg.portRangeEnd + 1 - cfg.portRangeStart)).find?
    (fun port =>
      !(getUsedPorts reg runtimePorts).contains port && !exclude.contains port)

end V5

/-- Errors thrown by the lifecycle manager. -/
inductive Err where
  | proxyNotFound
  | portExhausted
  | credentialsMissing
  | unitCreateFailed
  | restartFailed
deriving Repr, DecidableEq

/-- Options accepted by createProxy. -/
structure CreateProxyOptions where
  country : Option String
  city : Option String
  notes : Option String
  port : Option Nat
deriving Repr, DecidableEq

/-- Oracle for the external effects of one createProxy call: the fresh
randomUUID, the container id handed back by the runtime, the wall clock,
and whether container create plus start succeeds. -/
structure CreateEnv where
  newUuid : String
  newContainerId : String
  now : Nat
  startOk : Bool
deriving Repr, DecidableEq

/-- createProxy from src/docker.ts and the part_008 variant: resolve the
port (the JS expression options.port or-else allocatePort, where port 0
is falsy), apply the default region hints, require VPN credentials,
start the unit, then persist a fresh record with healthy false,
restarts 0 and no exitIp. -/
def createProxy (env : CreateEnv) (cfg : Config) (reg : Registry)
    (options : CreateProxyOptions) : Except Err (ProxyRecord × Registry) :=
  let portRes : Except Err Nat :=
    match options.port with
    | some p =>
      if p == 0 then
        match allocatePort cfg reg [] with
        | some q => .ok q
        | none => .error .portExhausted
      else .ok p
    | none =>
      match allocatePort cfg reg [] with
      | some q => .ok q
      | none => .error .portExhausted
  match portRes with
  | .error e => .error e
  | .ok port =>
    let country := options.country.orElse (fun _ => cfg.defaultCountry)
    let city := options.city.orElse (fun _ => cfg.defaultCity)
    if cfg.piaUsername.isSome && cfg.piaPassword.isSome then
      if env.startOk then
        let proxy : ProxyRecord :=
          { id := env.newUuid, containerId := env.newContainerId,
            port := port, country := country, city := city,
            exitIp := none, healthy := false, restarts := 0,
            createdAt := env.now, notes := options.notes }
        .ok (proxy, regAdd reg proxy)
      else .error .unitCreateFailed
    else .error .credentialsMissing

/-- Outcome of the container restart call inside rotateProxy: success,
a 404 (unit gone), or any other runtime error. -/
inductive RestartOutcome where
  | ok
  | notFound
  | failed
deriving Repr, DecidableEq

/-- Oracle for one rotateProxy call. -/
structure RotateEnv where
  restart : RestartOutcome
  create : CreateEnv
deriving Repr, DecidableEq

/-- rotateProxy from src/docker.ts: restart the backing unit in place
and on success bump restarts, clear exitIp, set healthy false.  On a
404 the record's country, city and notes (not its port) are passed to
createProxy and the old record is left in the registry. -/
def rotateProxy (env : RotateEnv) (cfg : Config) (reg : Registry)
    (id : String) : Except Err (ProxyRecord × Registry) :=
  match regGet reg id with
  | none => .error .proxyNotFound
  | some proxy =>
    match env.restart with
    | .failed => .error .restartFailed
    | .notFound =>
      createProxy env.create cfg reg
        { country := proxy.country, city := proxy.city,
          notes := proxy.notes, port := none }
    | .ok =>
      let updated : ProxyRecord :=
        { proxy with restarts := proxy.restarts + 1,
                     exitIp := none, healthy := false }
      .ok (updated,
           regUpdate reg id (fun q =>
             { q with restarts := proxy.restarts + 1,
                      exitIp := none, healthy := false }))

namespace V8

/-- rotateProxy from the part_008 variant: identical success path, but
the recreate path passes the stored port to createProxy, removes the
old record id from the registry and returns the new record. -/
def rotateProxy (env : RotateEnv) (cfg : Config) (reg : Registry)
    (id : String) : Except Err (ProxyRecord × Registry) :=
  match regGet reg id with
  | none => .error .proxyNotFound
  | some proxy =>
    match env.restart with
    | .failed => .error .restartFailed
    | .notFound =>
      match createProxy env.create cfg reg
        { country := proxy.country, city := proxy.city,
          notes := proxy.notes, port := some proxy.port } with
      | .error e => .error e
      | .ok (newProxy, reg1) => .ok (newProxy, regRemove reg1 id)
    | .ok =>
      let updated : ProxyRecord :=
        { proxy with restarts := proxy.restarts + 1,
                     exitIp := none, healthy := false }
      .ok (updated,
           regUpdate reg id (fun q =>
             { q with restarts := proxy.restarts + 1,
                      exitIp := none, healthy := false }))

end V8

/-- One farm-labeled unit as reported by the runtime list call: its
container id, the proxyfarm labels, running state and creation time.
The uuid field is the oracle value randomUUID would return if the id
label were missing. -/
structure ContainerInfo where
  cid : String
  labelId : Option String
  labelPort : Nat
  labelCountry : Option String
  labelCity : Option String
  running : Bool
  created : Nat
  uuid : String
deriving Repr, DecidableEq

/-- The record reconcileContainers synthesizes for a labeled unit that
has no matching registry record. -/
def synthRecord (c : ContainerInfo) : ProxyRecord :=
  { id := c.labelId.getD c.uuid, containerId := c.cid, port := c.labelPort,
    country := c.labelCountry, city := c.labelCity, exitIp := none,
    healthy := c.running, restarts := 0, createdAt := c.created,
    notes := none }

/-- Body of the first reconciliation loop: adopt a listed unit whose
container id is not among the snapshot's known container ids. -/
def adoptStep (knownCids : List String) (r : Registry) (c : ContainerInfo) :
    Registry :=
  if knownCids.contains c.cid then r else regAdd r (synthRecord c)

/-- Body of the second reconciliation loop: delete a snapshot record
whose container id no longer appears among the listed units. -/
def pruneStep (containers : List ContainerInfo) (r : Registry)
    (p : ProxyRecord) : Registry :=
  if containers.any (fun c => c.cid == p.containerId) then r
  else regRemove r p.id

/-- reconcileContainers from src/docker.ts: snapshot the registry, add
a synthesized record for every listed unit whose container id is not in
the snapshot, then delete every snapshot record whose container id is
not among the listed units. -/
def reconcileContainers (containers : List ContainerInfo) (reg : Registry) :
    Registry :=
  let registryProxies := regList reg
  let knownCids := registryProxies.map (fun p => p.containerId)
  let reg1 := containers.foldl (adoptStep knownCids) reg
  registryProxies.foldl (pruneStep containers) reg1

/-- Result value of a health probe, mirroring HealthCheckResult. -/
structure HealthCheckResult where
  proxyId : String
  healthy : Bool
  exitIp : Option String
  error : Option String
deriving Repr, DecidableEq

/-- The result returned when the probed id has no registry record. -/
def notFoundResult (proxyId : String) : HealthCheckResult :=
  { proxyId := proxyId, healthy := false, exitIp := none,
    error := some "Proxy not found" }

/-- Oracle for one probe in the src/health.ts variant: the SOCKS
handshake outcome, the exit address the sidecar observes, and an
optional exception raised inside the try block. -/
structure ProbeEnv where
  socksOk : Bool
  exitIp : Option String
  thrown : Option String
deriving Repr, DecidableEq

/-- checkProxyHealth from src/health.ts: unknown id returns a not-found
result without touching the registry; otherwise the SOCKS handshake is
tried, then the sidecar exit-ip fetch, updating the record on every
path; an exception is caught and recorded as unhealthy. -/
def checkProxyHealth (probe : String → ProbeEnv) (reg : Registry)
    (proxyId : String) : HealthCheckResult × Registry :=
  match regGet reg proxyId with
  | none => (notFoundResult proxyId, reg)
  | some _ =>
    let env := probe proxyId
    match env.thrown with
    | some msg =>
      ({ proxyId := proxyId, healthy := false, exitIp := none,
         error := some msg },
       regUpdate reg proxyId (fun q => { q with healthy := false }))
    | none =>
      if !env.socksOk then
        ({ proxyId := proxyId, healthy := false, exitIp := none,
           error := some "SOCKS5 connection failed" },
         regUpdate reg proxyId (fun q => { q with healthy := false }))
      else
        match env.exitIp with
        | none =>
          ({ proxyId := proxyId, healthy := false, exitIp := none,
             error := some "Could not fetch exit IP" },
           regUpdate reg proxyId (fun q => { q with healthy := false }))
        | some ip =>
          ({ proxyId := proxyId, healthy := true, exitIp := some ip,
             error := none },
           regUpdate reg proxyId (fun q =>
             { q with healthy := true, exitIp := some ip }))

/-- Oracle for one probe in the part_003 variant: the address observed
through the proxy frontend, the fallback address observed from inside
the unit's network namespace, and an optional exception. -/
structure ProbeEnvV2 where
  proxyIp : Option String
  containerIp : Option String
  thrown : Option String
deriving Repr, DecidableEq

namespace V2

/-- checkProxyHealth from the part_003 variant: probe through the proxy
frontend first, fall back to the namespace-sharing sidecar, update the
record on every path, catch exceptions as unhealthy. -/
def checkProxyHealth (probe : String → ProbeEnvV2) (reg : Registry)
    (proxyId : String) : HealthCheckResult × Registry :=
  match regGet reg proxyId with
  | none => (notFoundResult proxyId, reg)
  | some _ =>
    let env := probe proxyId
    match env.thrown with
    | some msg =>
      ({ proxyId := proxyId, healthy := false, exitIp := none,
         error := some msg },
       regUpdate reg proxyId (fun q => { q with healthy := false }))
    | none =>
      match env.proxyIp with
      | some ip =>
        ({ proxyId := proxyId, healthy := true, exitIp := some ip,
           error := none },
         regUpdate reg proxyId (fun q =>
           { q with healthy := true, exitIp := some ip }))
      | none =>
        match env.containerIp with
        | none =>
          ({ proxyId := proxyId, healthy := false, exitIp := none,
             error := some "Proxy not responding" },
           regUpdate reg proxyId (fun q => { q with healthy := false }))
        | some ip =>
          ({ proxyId := proxyId, healthy := true, exitIp := some ip,
             error := none },
           regUpdate reg proxyId (fun q =>
             { q with healthy := true, exitIp := some ip }))

end V2

/-- The result Map built by bulkHealthCheck, in insertion order. -/
abbrev ResultMap := List (String × HealthCheckResult)

/-- Map.set on the result map: replace in place or append. -/
def mapSet (m : ResultMap) (k : String) (v : HealthCheckResult) : ResultMap :=
  if m.any (fun e => e.1 == k) then
    m.map (fun e => if e.1 == k then (k, v) else e)
  else m ++ [(k, v)]

/-- Map.get on the result map. -/
def mapLookup (m : ResultMap) (k : String) : Option HealthCheckResult :=
  (m.find? (fun e => e.1 == k)).map Prod.snd

/-- bulkHealthCheck from part_003: probe every requested id over the
same registry snapshot (the parallel fan-out), substituting the
catch-clause fallback result when a probe promise rejects (the reject
oracle), then fold the results into a map keyed by proxyId. -/
def bulkHealthCheck (probe : String → ProbeEnvV2)
    (reject : String → Option String) (reg : Registry)
    (proxyIds : List String) : ResultMap :=
  let results := proxyIds.map (fun id =>
    match reject id with
    | some msg =>
      { proxyId := id, healthy := false, exitIp := none, error := some msg }
    | none => (V2.checkProxyHealth probe reg id).1)
  results.foldl (fun m res => mapSet m res.proxyId res) []

/-- Observable decisions of one auto-heal cycle: a rotate invocation
(recording the restarts value the guard saw), a ceiling skip, or a
record removal. -/
inductive HealAction where
  | rotated (id : String) (restartsBefore : Nat)
  | skipped (id : String)
  | removed (id : String)
deriving Repr, DecidableEq

/-- Oracles for one auto-heal cycle: per-id rotate outcomes and per-id
probe outcomes for the settle re-check. -/
structure HealEnv where
  rotate : String → RotateEnv
  probe : String → ProbeEnvV2

/-- autoHealUnhealthyProxy from part_003: re-read the record; do
nothing if it is gone or healthy; skip (with a log) at the restart
ceiling; otherwise invoke rotate (the part_008 variant, whose recreate
path also retires the old id), and on success re-probe after the settle
delay.  A rotate failure is caught and healing of that id stops. -/
def autoHealStep (env : HealEnv) (cfg : Config)
    (state : Registry × List HealAction) (proxyId : String) :
    Registry × List HealAction :=
  let reg := state.1
  let trace := state.2
  match regGet reg proxyId with
  | none => (reg, trace)
  | some proxy =>
    if proxy.healthy then (reg, trace)
    else if 3 ≤ proxy.restarts then (reg, trace ++ [.skipped proxyId])
    else
      match V8.rotateProxy (env.rotate proxyId) cfg reg proxyId with
      | .error _ => (reg, trace ++ [.rotated proxyId proxy.restarts])
      | .ok (_, reg1) =>
        ((V2.checkProxyHealth env.probe reg1 proxyId).2,
         trace ++ [.rotated proxyId proxy.restarts])

/-- One cycle of the auto-heal control loop over the ids reported
unhealthy by the bulk probe (the batching only bounds concurrency; the
per-id steps are modelled sequentially). -/
def autoHealCycle (env : HealEnv) (cfg : Config) (reg : Registry)
    (proxyIds : List String) : Registry × List HealAction :=
  proxyIds.foldl (autoHealStep env cfg) (reg, [])

/-- The keep-selection of the healProxies dedupe step: sort the port
group by createdAt ascending and keep the first healthy record, or the
first of the sorted group when none is healthy. -/
def keepOf (group : List ProxyRecord) : Option ProxyRecord :=
  let sorted := group.mergeSort (fun a b => a.createdAt ≤ b.createdAt)
  (sorted.find? (fun p => p.healthy)).orElse (fun _ => sorted.head?)

/-- Registry content after the healProxies dedupe step, given the
listed records l (registry content with unique ids): every record whose
port group has more than one entry is deleted unless it is the kept
record of its group. -/
def dedupeSurvivors (l : List ProxyRecord) : List ProxyRecord :=
  l.filter (fun p =>
    let group := l.filter (fun q => q.port == p.port)
    if group.length ≤ 1 then true
    else
      match keepOf group with
      | some k => p.id == k.id
      | none => true)

/-! Concrete fixtures used to instantiate the theorems below. -/

/-- A small configuration with credentials present and the port range
30000 to 30005. -/
def cfgW : Config :=
  { portRangeStart := 30000, portRangeEnd := 30005,
    piaUsername := some "u", piaPassword := some "p",
    defaultCountry := none, defaultCity := none }

/-- A record at port 30000 with one prior rotate. -/
def recA : ProxyRecord :=
  { id := "a", containerId := "c1", port := 30000, country := some "US",
    city := some "Denver", exitIp := some "1.2.3.4", healthy := false,
    restarts := 1, createdAt := 10, notes := none }

/-- An unhealthy record at the restart ceiling. -/
def recCapped : ProxyRecord :=
  { id := "z", containerId := "c9", port := 30004, country := none,
    city := none, exitIp := none, healthy := false,
    restarts := 3, createdAt := 20, notes := none }

/-- A rotate oracle whose restart call reports the unit gone. -/
def envGone : RotateEnv :=
  { restart := .notFound,
    create := { newUuid := "b", newContainerId := "c2", now := 50,
                startOk := true } }

/-- A rotate oracle whose in-place restart succeeds. -/
def envOk : RotateEnv :=
  { restart := .ok,
    create := { newUuid := "b", newContainerId := "c2", now := 50,
                startOk := true } }

/-- The record the recreate path of the part_008 rotate variant builds
for recA under the envGone oracle. -/
def recB : ProxyRecord :=
  { id := "b", containerId := "c2", port := 30000, country := some "US",
    city := some "Denver", exitIp := none, healthy := false,
    restarts := 0, createdAt := 50, notes := none }

/-- A probe oracle that always times out at every stage. -/
def probeDead : String → ProbeEnvV2 :=
  fun _ => { proxyIp := none, containerIp := none, thrown := none }

/-- An unhealthy record on port 30000, the older of the duplicate pair. -/
def recD1 : ProxyRecord :=
  { id := "d1", containerId := "cd1", port := 30000, country := none,
    city := none, exitIp := none, healthy := false, restarts := 0,
    createdAt := 10, notes := none }

/-- A healthy record on port 30000, newer than recD1. -/
def recD2 : ProxyRecord :=
  { id := "d2", containerId := "cd2", port := 30000, country := none,
    city := none, exitIp := some "9.9.9.9", healthy := true, restarts := 1,
    createdAt := 20, notes := none }

/-- A src/health.ts probe oracle whose SOCKS handshake always fails. -/
def probeDeadV1 : String → ProbeEnv :=
  fun _ => { socksOk := false, exitIp := none, thrown := none }

/-- A heal-cycle oracle with successful in-place restarts and dead
probes. -/
def healEnvW : HealEnv :=
  { rotate := fun _ => envOk, probe := probeDead }

/-- A labeled running unit with id label X, for the reconciler. -/
def unitX1 : ContainerInfo :=
  { cid := "c1", labelId := some "X", labelPort := 30000,
    labelCountry := none, labelCity := none, running := true,
    created := 5, uuid := "uu1" }

/-- A second labeled running unit carrying the same id label X. -/
def unitX2 : ContainerInfo :=
  { cid := "c2", labelId := some "X", labelPort := 30001,
    labelCountry := none, labelCity := none, running := false,
    created := 6, uuid := "uu2" }

/-! Theorems. -/

/-- A find? over an ascending range returns a value no earlier element
of the range satisfies the predicate for. -/
lemma find?_range'_first {pred : Nat → Bool} :
    ∀ (n s p : Nat), (List.range' s n).find? pred = some p →
      ∀ q, s ≤ q → q < p → pred q = false := by
  intro n
  induction n with
  | zero => intro s p h; simp [List.find?] at h
  | succ m ih =>
    intro s p h q hsq hqp
    rw [List.range'_succ] at h
    rcases hps : pred s with _ | _
    · rw [List.find?_cons_of_neg _ (by simp [hps])] at h
      rcases Nat.eq_or_lt_of_le hsq with rfl | hlt
      · exact hps
      · exact ih (s + 1) p h q hlt hqp
    · rw [List.find?_cons_of_pos _ hps] at h
      cases h
      omega

/-- The ascending range scan common to both allocatePort variants
returns the smallest port in neither the given used list nor the
exclusion list, and returns none exactly when used and excluded ports
cover the whole range. -/
lemma findPort_spec (cfg : Config) (used exclude : List Nat) :
    (∀ p, (List.range' cfg.portRangeStart
        (cfg.portRangeEnd + 1 - cfg.portRangeStart)).find?
        (fun port => !used.contains port && !exclude.contains port) = some p →
      cfg.portRangeStart ≤ p ∧ p ≤ cfg.portRangeEnd ∧
      p ∉ used ∧ p ∉ exclude ∧
      ∀ q, cfg.portRangeStart ≤ q → q < p →
        q ∈ used ∨ q ∈ exclude) ∧
    ((List.range' cfg.portRangeStart
        (cfg.portRangeEnd + 1 - cfg.portRangeStart)).find?
        (fun port => !used.contains port && !exclude.contains port) = none ↔
      ∀ q, cfg.portRangeStart ≤ q → q ≤ cfg.portRangeEnd →
        q ∈ used ∨ q ∈ exclude) := by
  constructor
  · intro p h
    have hmem := List.mem_of_find?_eq_some h
    rw [List.mem_range'_1] at hmem
    have hpred := List.find?_some h
    simp only [Bool.and_eq_true, Bool.not_eq_true'] at hpred
    obtain ⟨h1, h2⟩ := hpred
    simp only [List.contains_eq_any_beq] at h1 h2
    simp at h1 h2
    refine ⟨hmem.1, by omega, fun hc => h1 p hc rfl, fun hc => h2 p hc rfl, ?_⟩
    intro q hq1 hq2
    have := find?_range'_first _ _ _ h q hq1 hq2
    simp only [Bool.and_eq_false_iff, Bool.not_eq_false] at this
    rcases this with hu | he
    · left; simpa using hu
    · right; simpa using he
  · rw [List.find?_eq_none]
    constructor
    · intro h q hq1 hq2
      have hqmem : q ∈ List.range' cfg.portRangeStart
          (cfg.portRangeEnd + 1 - cfg.portRangeStart) := by
        rw [List.mem_range'_1]; omega
      have := h q hqmem
      simp only [Bool.and_eq_true, Bool.not_eq_true', not_and] at this
      by_cases hu : q ∈ used
      · left; exact hu
      · right
        have h1 : used.contains q = false := by
          simp [hu]
        have := this h1
        simp at this
        exact this
    · intro h q hqmem
      rw [List.mem_range'_1] at hqmem
      have := h q hqmem.1 (by omega)
      simp only [Bool.and_eq_true, Bool.not_eq_true', not_and]
      rcases this with hu | he
      · intro hc; exact absurd (by simpa using hc) (by simp [hu])
      · intro _; simp [he]

/-- C2 counterexample: in the part_005 variant the used set also
contains runtime container label ports, so with an empty registry and a
runtime container occupying port 30000 the allocator skips 30000 — the
smallest port that is neither a registry port nor excluded — and, when
runtime containers occupy the whole range, throws PortExhausted even
though registry-used and excluded ports cover none of it. -/
theorem allocatePort_v5_cex :
    getUsedPorts ([] : Registry) = [] ∧
    (30000 : Nat) ∉ getUsedPorts ([] : Registry) ∧
    (30000 : Nat) ∉ ([] : List Nat) ∧
    V5.allocatePort cfgW [] [30000] [] = some 30001 ∧
    V5.allocatePort cfgW []
      [30000, 30001, 30002, 30003, 30004, 30005] [] = none := by
  decide

/-- C2 (amended): both allocatePort variants scan the configured range
ascending and return the smallest port in neither their used set nor
the exclusion set, never returning a port outside the range, used, or
excluded, and fail (PortExhausted) exactly when the union of their used
set and the excluded ports covers the whole range — where the used set
is the registry's ports in the part_006 variant and additionally the
runtime container label ports in the part_005 variant, which can
therefore skip registry-free ports and exhaust earlier. -/
theorem allocatePort_variants_spec (cfg : Config) (reg : Registry)
    (runtimePorts exclude : List Nat) :
    (∀ p, allocatePort cfg reg exclude = some p →
      cfg.portRangeStart ≤ p ∧ p ≤ cfg.portRangeEnd ∧
      p ∉ getUsedPorts reg ∧ p ∉ exclude ∧
      ∀ q, cfg.portRangeStart ≤ q → q < p →
        q ∈ getUsedPorts reg ∨ q ∈ exclude) ∧
    (allocatePort cfg reg exclude = none ↔
      ∀ q, cfg.portRangeStart ≤ q → q ≤ cfg.portRangeEnd →
        q ∈ getUsedPorts reg ∨ q ∈ exclude) ∧
    (∀ p, V5.allocatePort cfg reg runtimePorts exclude = some p →
      cfg.portRangeStart ≤ p ∧ p ≤ cfg.portRangeEnd ∧
      p ∉ V5.getUsedPorts reg runtimePorts ∧ p ∉ exclude ∧
      ∀ q, cfg.portRangeStart ≤ q → q < p →
        q ∈ V5.getUsedPorts reg runtimePorts ∨ q ∈ exclude) ∧
    (V5.allocatePort cfg reg runtimePorts exclude = none ↔
      ∀ q, cfg.portRangeStart ≤ q → q ≤ cfg.portRangeEnd →
        q ∈ V5.getUsedPorts reg runtimePorts ∨ q ∈ exclude) :=
  ⟨(findPort_spec cfg (getUsedPorts reg) exclude).1,
   (findPort_spec cfg (getUsedPorts reg) exclude).2,
   (findPort_spec cfg (V5.getUsedPorts reg runtimePorts) exclude).1,
   (findPort_spec cfg (V5.getUsedPorts reg runtimePorts) exclude).2⟩

end Pia

namespace Pia

/-- Witness for C2 at a concrete input: with one registry record on
port 30000 and 30001 excluded, the part_006 allocator returns 30002,
in range, unused, not excluded and minimal; with a runtime container
additionally occupying 30002, the part_005 allocator returns 30003
with the same properties over its larger used set. -/
theorem allocatePort_variants_spec_witness :
    (cfgW.portRangeStart ≤ 30002 ∧ 30002 ≤ cfgW.portRangeEnd ∧
     (30002 : Nat) ∉ getUsedPorts [recA] ∧ (30002 : Nat) ∉ [30001] ∧
     ∀ q, cfgW.portRangeStart ≤ q → q < 30002 →
       q ∈ getUsedPorts [recA] ∨ q ∈ [30001]) ∧
    (cfgW.portRangeStart ≤ 30003 ∧ 30003 ≤ cfgW.portRangeEnd ∧
     (30003 : Nat) ∉ V5.getUsedPorts [recA] [30002] ∧
     (30003 : Nat) ∉ [30001] ∧
     ∀ q, cfgW.portRangeStart ≤ q → q < 30003 →
       q ∈ V5.getUsedPorts [recA] [30002] ∨ q ∈ [30001]) :=
  ⟨(allocatePort_variants_spec cfgW [recA] [30002] [30001]).1 30002 (by decide),
   (allocatePort_variants_spec cfgW [recA] [30002] [30001]).2.2.1 30003
     (by decide)⟩

end Pia

namespace Pia

/-- A lookup for a different id is unaffected by an in-place keyed map
replacement that preserves the key. -/
lemma regGet_map_if (reg : Registry) (i : String) (f : ProxyRecord → ProxyRecord)
    (hf : ∀ q, q.id = i → (f q).id = i) :
    regGet (reg.map (fun q => if q.id == i then f q else q)) i =
      (regGet reg i).map f := by
  unfold regGet
  rw [List.find?_map]
  have hpred : ((fun p => p.id == i) ∘ fun q => if q.id == i then f q else q) =
      (fun q => q.id == i) := by
    funext q
    by_cases h : q.id = i
    · simp [h, hf q h]
    · simp [h]
  rw [hpred]
  cases hfind : List.find? (fun q => q.id == i) reg with
  | none => rfl
  | some v =>
    have hv : v.id = i := by simpa using List.find?_some hfind
    simp [Option.map, hv, hf v hv]

/-- A keyed in-place replacement at key i leaves lookups of other keys
unchanged. -/
lemma regGet_map_if_other (reg : Registry) (i id : String)
    (f : ProxyRecord → ProxyRecord) (hne : i ≠ id)
    (hf : ∀ q, q.id = i → (f q).id = i) :
    regGet (reg.map (fun q => if q.id == i then f q else q)) id =
      regGet reg id := by
  unfold regGet
  rw [List.find?_map]
  have hpred : ((fun p => p.id == id) ∘ fun q => if q.id == i then f q else q) =
      (fun q => q.id == id) := by
    funext q
    by_cases h : q.id = i
    · have h1 : (f q).id = i := hf q h
      simp only [Function.comp, if_pos (by simp [h] : (q.id == i) = true)]
      rw [show ((f q).id == id) = false by
            simp only [beq_eq_false_iff_ne, ne_eq, h1]; exact hne,
          show (q.id == id) = false by
            simp only [beq_eq_false_iff_ne, ne_eq, h]; exact hne]
    · simp [h]
  rw [hpred]
  cases hfind : List.find? (fun q => q.id == id) reg with
  | none => rfl
  | some v =>
    have hv : v.id = id := by simpa using List.find?_some hfind
    have : v.id ≠ i := by rw [hv]; exact fun hc => hne hc.symm
    simp [Option.map, this]

/-- Reading back the updated id returns the transformed record. -/
lemma regGet_regUpdate_self (reg : Registry) (i : String)
    (f : ProxyRecord → ProxyRecord) (hf : ∀ q, q.id = i → (f q).id = i) :
    regGet (regUpdate reg i f) i = (regGet reg i).map f := by
  unfold regUpdate
  cases h : regGet reg i with
  | none => simp [h]
  | some p => rw [regGet_map_if reg i f hf, h]

/-- Updating one id leaves lookups of other ids unchanged. -/
lemma regGet_regUpdate_other (reg : Registry) (i id : String)
    (f : ProxyRecord → ProxyRecord) (hne : i ≠ id)
    (hf : ∀ q, q.id = i → (f q).id = i) :
    regGet (regUpdate reg i f) id = regGet reg id := by
  unfold regUpdate
  cases h : regGet reg i with
  | none => rfl
  | some p => exact regGet_map_if_other reg i id f hne hf

/-- Adding a record with a different id leaves a lookup unchanged. -/
lemma regGet_regAdd_other (reg : Registry) (p : ProxyRecord) (id : String)
    (hne : p.id ≠ id) :
    regGet (regAdd reg p) id = regGet reg id := by
  unfold regAdd
  by_cases hany : reg.any (fun q => q.id == p.id) = true
  · rw [if_pos hany]
    exact regGet_map_if_other reg p.id id (fun _ => p) hne (fun q _ => rfl)
  · rw [if_neg hany]
    unfold regGet
    rw [List.find?_append]
    have h1 : List.find? (fun q => q.id == id) [p] = none := by
      simp [List.find?, beq_eq_false_iff_ne.mpr hne]
    rw [h1]
    simp

/-- Looking up a freshly added record finds it. -/
lemma regGet_regAdd_self (reg : Registry) (p : ProxyRecord) :
    regGet (regAdd reg p) p.id = some p := by
  unfold regAdd
  by_cases hany : reg.any (fun q => q.id == p.id) = true
  · rw [if_pos hany]
    rw [regGet_map_if reg p.id (fun _ => p) (fun q _ => rfl)]
    cases hg : regGet reg p.id with
    | some v => rfl
    | none =>
      exfalso
      rw [List.any_eq_true] at hany
      obtain ⟨x, hx, hxid⟩ := hany
      unfold regGet at hg
      rw [List.find?_eq_none] at hg
      exact (hg x hx) hxid
  · rw [if_neg hany]
    unfold regGet
    rw [List.find?_append]
    cases hf : List.find? (fun q => q.id == p.id) reg with
    | some v =>
      exfalso
      apply hany
      rw [List.any_eq_true]
      refine ⟨v, List.mem_of_find?_eq_some hf, ?_⟩
      simpa using List.find?_some hf
    | none => simp [List.find?]

/-- A removed id can no longer be looked up. -/
lemma regGet_regRemove_self (reg : Registry) (i : String) :
    regGet (regRemove reg i) i = none := by
  unfold regRemove regGet
  rw [List.find?_eq_none]
  intro x hx
  have := (List.mem_filter.mp hx).2
  simp only [bne_iff_ne, ne_eq] at this
  simp [this]

/-- Removing one id leaves lookups of other ids unchanged. -/
lemma regGet_regRemove_other (reg : Registry) (i id : String) (hne : i ≠ id) :
    regGet (regRemove reg i) id = regGet reg id := by
  unfold regRemove regGet
  induction reg with
  | nil => rfl
  | cons hd t ih =>
    by_cases hid : hd.id = i
    · have hb : (hd.id != i) = false := by simp [hid]
      have h2 : (hd.id == id) = false := by
        simp only [beq_eq_false_iff_ne, ne_eq, hid]; exact hne
      rw [List.filter_cons, if_neg (by simp [hb]), List.find?_cons, h2]
      exact ih
    · have hb : (hd.id != i) = true := by simp [hid]
      rw [List.filter_cons, if_pos (by simp [hid]), List.find?_cons,
        List.find?_cons]
      cases hcase : hd.id == id with
      | true => rfl
      | false => exact ih

/-- A successful createProxy returns a freshly persisted record: zero
restarts, unhealthy, no exitIp, oracle id and container id, region
hints resolved against the defaults, and the requested nonzero port. -/
lemma createProxy_ok_fields (env : CreateEnv) (cfg : Config) (reg : Registry)
    (options : CreateProxyOptions) (p : ProxyRecord) (reg1 : Registry)
    (h : createProxy env cfg reg options = .ok (p, reg1)) :
    p.restarts = 0 ∧ p.healthy = false ∧ p.exitIp = none ∧
    p.id = env.newUuid ∧ p.containerId = env.newContainerId ∧
    p.country = options.country.orElse (fun _ => cfg.defaultCountry) ∧
    p.city = options.city.orElse (fun _ => cfg.defaultCity) ∧
    p.notes = options.notes ∧
    reg1 = regAdd reg p ∧
    (∀ q, options.port = some q → q ≠ 0 → p.port = q) := by
  unfold createProxy at h
  cases hopt : options.port with
  | some q0 =>
    rw [hopt] at h
    dsimp only at h
    by_cases hq0 : q0 = 0
    · rw [if_pos (by simp [hq0])] at h
      cases halloc : allocatePort cfg reg [] with
      | none => rw [halloc] at h; exact absurd h (by simp)
      | some q1 =>
        rw [halloc] at h
        dsimp only at h
        by_cases hcred : (cfg.piaUsername.isSome && cfg.piaPassword.isSome) = true
        · rw [if_pos hcred] at h
          by_cases hso : env.startOk = true
          · rw [if_pos hso] at h
            cases h
            refine ⟨rfl, rfl, rfl, rfl, rfl, rfl, rfl, rfl, rfl, ?_⟩
            intro q hq hqne
            cases hq
            exact absurd hq0 hqne
          · rw [if_neg hso] at h; exact absurd h (by simp)
        · rw [if_neg hcred] at h; exact absurd h (by simp)
    · rw [if_neg (by simp [hq0])] at h
      dsimp only at h
      by_cases hcred : (cfg.piaUsername.isSome && cfg.piaPassword.isSome) = true
      · rw [if_pos hcred] at h
        by_cases hso : env.startOk = true
        · rw [if_pos hso] at h
          cases h
          refine ⟨rfl, rfl, rfl, rfl, rfl, rfl, rfl, rfl, rfl, ?_⟩
          intro q hq hqne
          cases hq
          rfl
        · rw [if_neg hso] at h; exact absurd h (by simp)
      · rw [if_neg hcred] at h; exact absurd h (by simp)
  | none =>
    rw [hopt] at h
    dsimp only at h
    cases halloc : allocatePort cfg reg [] with
    | none => rw [halloc] at h; exact absurd h (by simp)
    | some q1 =>
      rw [halloc] at h
      dsimp only at h
      by_cases hcred : (cfg.piaUsername.isSome && cfg.piaPassword.isSome) = true
      · rw [if_pos hcred] at h
        by_cases hso : env.startOk = true
        · rw [if_pos hso] at h
          cases h
          refine ⟨rfl, rfl, rfl, rfl, rfl, rfl, rfl, rfl, rfl, ?_⟩
          intro q hq hqne
          cases hq
        · rw [if_neg hso] at h; exact absurd h (by simp)
      · rw [if_neg hcred] at h; exact absurd h (by simp)

/-- C1 counterexample: with the record recA (restarts 1) whose backing
unit is gone, rotateProxy succeeds via the recreate path but the
returned record has restarts 0, not recA.restarts + 1, refuting the
claim that rotate always increments restarts by exactly one. -/
theorem rotateProxy_increment_cex :
    regGet [recA] "a" = some recA ∧ recA.restarts = 1 ∧
    ¬ (∀ p reg1, rotateProxy envGone cfgW [recA] "a" = Except.ok (p, reg1) →
        p.restarts = recA.restarts + 1) := by
  refine ⟨rfl, rfl, fun hcl => ?_⟩
  have := hcl _ _ rfl
  exact absurd this (by decide)

/-- C1 (amended): for every registry record, a rotate whose in-place
restart succeeds increments restarts by exactly one, sets healthy false
and clears exitIp, both in the returned record and in the registry;
when the unit is gone, the recreate path of either rotate variant
returns a freshly created record whose restarts is 0 (the counter is
reset rather than incremented), with healthy false and exitIp unset. -/
theorem rotateProxy_spec (env : RotateEnv) (cfg : Config) (reg : Registry)
    (id : String) (proxy : ProxyRecord) (h : regGet reg id = some proxy) :
    (env.restart = .ok →
      rotateProxy env cfg reg id =
        .ok ({ proxy with restarts := proxy.restarts + 1,
                          exitIp := none, healthy := false },
             regUpdate reg id (fun q =>
               { q with restarts := proxy.restarts + 1,
                        exitIp := none, healthy := false })) ∧
      regGet (regUpdate reg id (fun q =>
               { q with restarts := proxy.restarts + 1,
                        exitIp := none, healthy := false })) id =
        some { proxy with restarts := proxy.restarts + 1,
                          exitIp := none, healthy := false }) ∧
    (env.restart = .notFound →
      (∀ p reg1, rotateProxy env cfg reg id = .ok (p, reg1) →
        p.restarts = 0 ∧ p.healthy = false ∧ p.exitIp = none) ∧
      (∀ p reg1, V8.rotateProxy env cfg reg id = .ok (p, reg1) →
        p.restarts = 0 ∧ p.healthy = false ∧ p.exitIp = none)) := by
  constructor
  · intro hok
    constructor
    · unfold rotateProxy
      rw [h, hok]
    · rw [regGet_regUpdate_self reg id
        (fun q => { q with restarts := proxy.restarts + 1,
                           exitIp := none, healthy := false })
        (fun q hq => hq), h]
      rfl
  · intro hnf
    constructor
    · intro p reg1 hrot
      unfold rotateProxy at hrot
      rw [h, hnf] at hrot
      dsimp only at hrot
      have := createProxy_ok_fields _ _ _ _ _ _ hrot
      exact ⟨this.1, this.2.1, this.2.2.1⟩
    · intro p reg1 hrot
      unfold V8.rotateProxy at hrot
      rw [h, hnf] at hrot
      dsimp only at hrot
      cases hcr : createProxy env.create cfg reg
          { country := proxy.country, city := proxy.city,
            notes := proxy.notes, port := some proxy.port } with
      | error e => rw [hcr] at hrot; exact absurd hrot (by simp)
      | ok pr =>
        rw [hcr] at hrot
        dsimp only at hrot
        cases hrot
        have := createProxy_ok_fields _ _ _ _ _ _ hcr
        exact ⟨this.1, this.2.1, this.2.2.1⟩

/-- Witness for C1 at a concrete input: a successful in-place rotate of
recA yields restarts 2, healthy false, exitIp cleared. -/
theorem rotateProxy_spec_witness :
    rotateProxy envOk cfgW [recA] "a" =
      Except.ok ({ recA with restarts := recA.restarts + 1,
                             exitIp := none, healthy := false },
        regUpdate [recA] "a" (fun q =>
          { q with restarts := recA.restarts + 1,
                   exitIp := none, healthy := false })) ∧
    regGet (regUpdate [recA] "a" (fun q =>
          { q with restarts := recA.restarts + 1,
                   exitIp := none, healthy := false })) "a" =
      some { recA with restarts := recA.restarts + 1,
                       exitIp := none, healthy := false } :=
  (rotateProxy_spec envOk cfgW [recA] "a" recA rfl).1 rfl

/-- C6 counterexample: in the src/docker.ts variant, when recA's unit
is gone the recreate path allocates a fresh port (30001, not the stored
30000) and the old record id remains in the registry, refuting the
claim that the recreate reuses the stored port and retires the old
id. -/
theorem rotateProxy_recreate_cex :
    regGet [recA] "a" = some recA ∧ recA.port = 30000 ∧
    ∃ p reg1, rotateProxy envGone cfgW [recA] "a" = Except.ok (p, reg1) ∧
      p.port = 30001 ∧ p.port ≠ recA.port ∧ regGet reg1 "a" = some recA := by
  refine ⟨rfl, rfl, _, _, rfl, rfl, by decide, rfl⟩

/-- C6 (amended): in the part_008 rotate variant, when the unit is gone
the replacement is created from the record's stored country, city,
notes and (nonzero) port, the old record id is removed from the
registry, and the new record is returned (and readable under its own
id); in the src/docker.ts variant the port is freshly allocated and the
old record is not removed (see the counterexample). -/
theorem rotateProxy_recreate_v8_spec (env : RotateEnv) (cfg : Config)
    (reg : Registry) (id : String) (proxy : ProxyRecord)
    (h : regGet reg id = some proxy) (hnf : env.restart = .notFound)
    (hp0 : proxy.port ≠ 0) (p : ProxyRecord) (reg1 : Registry)
    (hrot : V8.rotateProxy env cfg reg id = .ok (p, reg1)) :
    p.port = proxy.port ∧
    p.country = proxy.country.orElse (fun _ => cfg.defaultCountry) ∧
    p.city = proxy.city.orElse (fun _ => cfg.defaultCity) ∧
    p.notes = proxy.notes ∧ p.restarts = 0 ∧ p.healthy = false ∧
    p.exitIp = none ∧ regGet reg1 id = none ∧
    (p.id ≠ id → regGet reg1 p.id = some p) := by
  unfold V8.rotateProxy at hrot
  rw [h, hnf] at hrot
  dsimp only at hrot
  cases hcr : createProxy env.create cfg reg
      { country := proxy.country, city := proxy.city,
        notes := proxy.notes, port := some proxy.port } with
  | error e => rw [hcr] at hrot; exact absurd hrot (by simp)
  | ok pr =>
    rw [hcr] at hrot
    dsimp only at hrot
    cases hrot
    have hf := createProxy_ok_fields _ _ _ _ _ _ hcr
    obtain ⟨h1, h2, h3, h4, h5, h6, h7, h8, h9, h10⟩ := hf
    refine ⟨h10 proxy.port rfl hp0, h6, h7, h8, h1, h2, h3, ?_, ?_⟩
    · rw [h9]
      exact regGet_regRemove_self _ _
    · intro hne
      rw [h9]
      rw [regGet_regRemove_other _ _ _ (fun hc => hne hc.symm)]
      exact regGet_regAdd_self reg pr.1

end Pia

namespace Pia

/-- Witness for C6 at a concrete input: rotating recA under envGone in
the part_008 variant reuses port 30000, retires id a, and returns the
fresh record recB readable under id b. -/
theorem rotateProxy_recreate_v8_spec_witness :
    recB.port = recA.port ∧
    recB.country = recA.country.orElse (fun _ => cfgW.defaultCountry) ∧
    recB.city = recA.city.orElse (fun _ => cfgW.defaultCity) ∧
    recB.notes = recA.notes ∧ recB.restarts = 0 ∧ recB.healthy = false ∧
    recB.exitIp = none ∧ regGet [recB] "a" = none ∧
    (recB.id ≠ "a" → regGet [recB] recB.id = some recB) :=
  rotateProxy_recreate_v8_spec envGone cfgW [recA] "a" recA rfl rfl
    (by decide) recB [recB] rfl

end Pia
namespace Pia

/-- C10: checkProxyHealth is total (it never throws): in both probe
variants the returned result always carries the requested proxyId, and
when the id has no registry record the result is the not-found value
(unhealthy, with the not-found error) and the registry is returned
completely unchanged. -/
theorem checkProxyHealth_spec (probe : String → ProbeEnv)
    (probe2 : String → ProbeEnvV2) (reg : Registry) (id : String) :
    (checkProxyHealth probe reg id).1.proxyId = id ∧
    (V2.checkProxyHealth probe2 reg id).1.proxyId = id ∧
    (notFoundResult id).healthy = false ∧
    (notFoundResult id).error = some "Proxy not found" ∧
    (regGet reg id = none →
      checkProxyHealth probe reg id = (notFoundResult id, reg) ∧
      V2.checkProxyHealth probe2 reg id = (notFoundResult id, reg)) := by
  refine ⟨?_, ?_, rfl, rfl, ?_⟩
  · unfold checkProxyHealth
    cases regGet reg id with
    | none => rfl
    | some p =>
      dsimp only
      cases (probe id).thrown with
      | some m => rfl
      | none =>
        cases hs : (probe id).socksOk with
        | false => rfl
        | true =>
          rw [if_neg (by simp)]
          cases (probe id).exitIp with
          | none => rfl
          | some ip => rfl
  · unfold V2.checkProxyHealth
    cases regGet reg id with
    | none => rfl
    | some p =>
      dsimp only
      cases (probe2 id).thrown with
      | some m => rfl
      | none =>
        dsimp only
        cases (probe2 id).proxyIp with
        | some ip => rfl
        | none =>
          dsimp only
          cases (probe2 id).containerIp with
          | none => rfl
          | some ip => rfl
  · intro h
    constructor
    · unfold checkProxyHealth
      rw [h]
    · unfold V2.checkProxyHealth
      rw [h]

end Pia

namespace Pia

/-- Every path of the part_003 probe returns a result whose proxyId is
the requested id. -/
lemma checkProxyHealthV2_proxyId (probe : String → ProbeEnvV2)
    (reg : Registry) (id : String) :
    (V2.checkProxyHealth probe reg id).1.proxyId = id := by
  unfold V2.checkProxyHealth
  cases regGet reg id with
  | none => rfl
  | some p =>
    dsimp only
    cases (probe id).thrown with
    | some m => rfl
    | none =>
      dsimp only
      cases (probe id).proxyIp with
      | some ip => rfl
      | none =>
        dsimp only
        cases (probe id).containerIp with
        | none => rfl
        | some ip => rfl

/-- Map.set adds exactly the key k to the key set. -/
lemma mapSet_keys (m : ResultMap) (k : String) (v : HealthCheckResult)
    (i : String) :
    (∃ e ∈ mapSet m k v, e.1 = i) ↔ (∃ e ∈ m, e.1 = i) ∨ i = k := by
  unfold mapSet
  by_cases hany : m.any (fun e => e.1 == k) = true
  · rw [if_pos hany]
    constructor
    · rintro ⟨e, he, hei⟩
      rw [List.mem_map] at he
      obtain ⟨e0, he0, heq⟩ := he
      by_cases h0 : e0.1 = k
      · right
        rw [show e = (k, v) by rw [← heq, if_pos (by simp [h0])]] at hei
        exact hei.symm ▸ rfl
      · left
        rw [show e = e0 by rw [← heq, if_neg (by simp [h0])]] at hei
        exact ⟨e0, he0, hei⟩
    · rintro (⟨e, he, hei⟩ | hik)
      · by_cases h0 : e.1 = k
        · refine ⟨(k, v), List.mem_map.mpr ⟨e, he, by rw [if_pos (by simp [h0])]⟩, ?_⟩
          rw [← hei, h0]
        · exact ⟨e, List.mem_map.mpr ⟨e, he, by rw [if_neg (by simp [h0])]⟩, hei⟩
      · rw [List.any_eq_true] at hany
        obtain ⟨e0, he0, h0⟩ := hany
        have h0' : e0.1 = k := by simpa using h0
        refine ⟨(k, v), List.mem_map.mpr ⟨e0, he0, by rw [if_pos (by simp [h0'])]⟩, hik.symm⟩
  · rw [if_neg hany]
    constructor
    · rintro ⟨e, he, hei⟩
      rw [List.mem_append] at he
      rcases he with he | he
      · exact Or.inl ⟨e, he, hei⟩
      · right
        rw [List.mem_singleton] at he
        rw [he] at hei
        exact hei.symm
    · rintro (⟨e, he, hei⟩ | hik)
      · exact ⟨e, List.mem_append.mpr (Or.inl he), hei⟩
      · exact ⟨(k, v), List.mem_append.mpr (Or.inr (List.mem_singleton.mpr rfl)), hik.symm⟩

end Pia

namespace Pia

/-- Map.set preserves the invariant that every stored value carries its
own key as proxyId. -/
lemma mapSet_wellKeyed (m : ResultMap) (k : String) (v : HealthCheckResult)
    (hm : ∀ e ∈ m, e.2.proxyId = e.1) (hv : v.proxyId = k) :
    ∀ e ∈ mapSet m k v, e.2.proxyId = e.1 := by
  intro e he
  unfold mapSet at he
  by_cases hany : m.any (fun e => e.1 == k) = true
  · rw [if_pos hany] at he
    rw [List.mem_map] at he
    obtain ⟨e0, he0, heq⟩ := he
    by_cases h0 : e0.1 = k
    · rw [show e = (k, v) by rw [← heq, if_pos (by simp [h0])]]
      exact hv
    · rw [show e = e0 by rw [← heq, if_neg (by simp [h0])]]
      exact hm e0 he0
  · rw [if_neg hany] at he
    rw [List.mem_append] at he
    rcases he with he | he
    · exact hm e he
    · rw [List.mem_singleton] at he
      rw [he]
      exact hv

/-- Map.set keeps the key list free of duplicates. -/
lemma mapSet_nodupKeys (m : ResultMap) (k : String) (v : HealthCheckResult)
    (hm : (m.map Prod.fst).Nodup) :
    ((mapSet m k v).map Prod.fst).Nodup := by
  unfold mapSet
  by_cases hany : m.any (fun e => e.1 == k) = true
  · rw [if_pos hany]
    have : (m.map (fun e => if e.1 == k then (k, v) else e)).map Prod.fst =
        m.map Prod.fst := by
      rw [List.map_map]
      apply List.map_congr_left
      intro e he
      by_cases h0 : e.1 = k
      · simp [h0]
      · simp [h0]
    rw [this]
    exact hm
  · rw [if_neg hany]
    rw [List.map_append]
    rw [List.nodup_append]
    refine ⟨hm, List.nodup_singleton _, ?_⟩
    intro x hx hx1
    rw [List.mem_map] at hx
    obtain ⟨e0, he0, heq⟩ := hx
    rw [show (List.map Prod.fst [(k, v)]) = [k] from rfl,
      List.mem_singleton] at hx1
    apply hany
    rw [List.any_eq_true]
    refine ⟨e0, he0, ?_⟩
    simp [heq, hx1]

/-- In a well-keyed map, every present key looks up to a value carrying
that key. -/
lemma mapLookup_found (m : ResultMap) (i : String)
    (hm : ∀ e ∈ m, e.2.proxyId = e.1) (h : ∃ e ∈ m, e.1 = i) :
    ∃ res, mapLookup m i = some res ∧ res.proxyId = i := by
  obtain ⟨e, he, hei⟩ := h
  cases hfind : m.find? (fun e => e.1 == i) with
  | none =>
    rw [List.find?_eq_none] at hfind
    exact absurd (by simp [hei]) (hfind e he)
  | some e0 =>
    refine ⟨e0.2, ?_, ?_⟩
    · unfold mapLookup
      rw [hfind]
      rfl
    · have h1 : e0.1 = i := by simpa using List.find?_some hfind
      rw [hm e0 (List.mem_of_find?_eq_some hfind), h1]

/-- Folding results into the map preserves well-keyedness. -/
lemma foldSet_wellKeyed (rs : List HealthCheckResult) :
    ∀ m, (∀ e ∈ m, e.2.proxyId = e.1) →
    ∀ e ∈ rs.foldl (fun m res => mapSet m res.proxyId res) m,
      e.2.proxyId = e.1 := by
  induction rs with
  | nil => intro m hm; exact hm
  | cons r rest ih =>
    intro m hm
    exact ih (mapSet m r.proxyId r) (mapSet_wellKeyed m r.proxyId r hm rfl)

/-- Folding results into the map keeps keys duplicate-free. -/
lemma foldSet_nodupKeys (rs : List HealthCheckResult) :
    ∀ m, (m.map Prod.fst).Nodup →
    (((rs.foldl (fun m res => mapSet m res.proxyId res) m)).map Prod.fst).Nodup := by
  induction rs with
  | nil => intro m hm; exact hm
  | cons r rest ih =>
    intro m hm
    exact ih (mapSet m r.proxyId r) (mapSet_nodupKeys m r.proxyId r hm)

/-- The keys after folding are the initial keys plus the proxyIds of
the folded results. -/
lemma foldSet_keys (rs : List HealthCheckResult) (i : String) :
    ∀ m, ((∃ e ∈ rs.foldl (fun m res => mapSet m res.proxyId res) m, e.1 = i) ↔
      (∃ e ∈ m, e.1 = i) ∨ ∃ res ∈ rs, res.proxyId = i) := by
  induction rs with
  | nil => intro m; simp
  | cons r rest ih =>
    intro m
    rw [List.foldl_cons, ih (mapSet m r.proxyId r), mapSet_keys]
    constructor
    · rintro ((h | h) | h)
      · exact Or.inl h
      · exact Or.inr ⟨r, List.mem_cons_self r rest, h.symm⟩
      · obtain ⟨res, hres, hid⟩ := h
        exact Or.inr ⟨res, List.mem_cons_of_mem r hres, hid⟩
    · rintro (h | h)
      · exact Or.inl (Or.inl h)
      · obtain ⟨res, hres, hid⟩ := h
        rcases List.mem_cons.mp hres with rfl | hres'
        · exact Or.inl (Or.inr hid.symm)
        · exact Or.inr ⟨res, hres', hid⟩

end Pia

namespace Pia

/-- C8: bulkHealthCheck returns exactly one result per requested id,
whatever the per-id probe outcomes or promise rejections: every
requested id looks up to exactly one result carrying that id, the
result map has no duplicate keys, and no result for a foreign id
appears. -/
theorem bulkHealthCheck_spec (probe : String → ProbeEnvV2)
    (reject : String → Option String) (reg : Registry) (ids : List String) :
    (∀ id ∈ ids, ∃ res,
      mapLookup (bulkHealthCheck probe reject reg ids) id = some res ∧
      res.proxyId = id) ∧
    ((bulkHealthCheck probe reject reg ids).map Prod.fst).Nodup ∧
    (∀ e ∈ bulkHealthCheck probe reject reg ids, e.1 ∈ ids) := by
  have hres : ∀ id, (match reject id with
      | some msg => ({ proxyId := id, healthy := false, exitIp := none,
                       error := some msg } : HealthCheckResult)
      | none => (V2.checkProxyHealth probe reg id).1).proxyId = id := by
    intro id
    cases reject id with
    | some msg => rfl
    | none => exact checkProxyHealthV2_proxyId probe reg id
  unfold bulkHealthCheck
  refine ⟨?_, ?_, ?_⟩
  · intro id hid
    apply mapLookup_found
    · exact foldSet_wellKeyed _ [] (by intro e he; cases he)
    · rw [foldSet_keys]
      right
      refine ⟨_, List.mem_map_of_mem _ hid, hres id⟩
  · exact foldSet_nodupKeys _ [] (by simp)
  · intro e he
    rcases (foldSet_keys _ e.1 []).mp ⟨e, he, rfl⟩ with h | h
    · simp at h
    · obtain ⟨res, hres0, hid⟩ := h
      rw [List.mem_map] at hres0
      obtain ⟨id0, hid0, heq⟩ := hres0
      rw [← hid, ← heq, hres id0]
      exact hid0

/-- Witness for C8 at a concrete input: ids with a duplicate and an
unknown id still each get exactly one result. -/
theorem bulkHealthCheck_spec_witness :
    (∀ id ∈ ["a", "a", "zz"], ∃ res,
      mapLookup (bulkHealthCheck probeDead (fun _ => none) [recA]
        ["a", "a", "zz"]) id = some res ∧ res.proxyId = id) ∧
    ((bulkHealthCheck probeDead (fun _ => none) [recA]
        ["a", "a", "zz"]).map Prod.fst).Nodup ∧
    (∀ e ∈ bulkHealthCheck probeDead (fun _ => none) [recA] ["a", "a", "zz"],
      e.1 ∈ ["a", "a", "zz"]) :=
  bulkHealthCheck_spec probeDead (fun _ => none) [recA] ["a", "a", "zz"]

end Pia

namespace Pia

/-- Witness for C10 at a concrete input: probing an id absent from the
registry returns the not-found result and leaves the registry empty. -/
theorem checkProxyHealth_spec_witness :
    (checkProxyHealth probeDeadV1 [] "ghost").1.proxyId = "ghost" ∧
    (V2.checkProxyHealth probeDead [] "ghost").1.proxyId = "ghost" ∧
    (notFoundResult "ghost").healthy = false ∧
    (notFoundResult "ghost").error = some "Proxy not found" ∧
    (regGet [] "ghost" = none →
      checkProxyHealth probeDeadV1 [] "ghost" = (notFoundResult "ghost", []) ∧
      V2.checkProxyHealth probeDead [] "ghost" =
        (notFoundResult "ghost", [])) :=
  checkProxyHealth_spec probeDeadV1 probeDead [] "ghost"

end Pia

namespace Pia

/-- Members of the registry after an add are old members or the added
record. -/
lemma regAdd_mem (reg : Registry) (p q : ProxyRecord)
    (h : q ∈ regAdd reg p) : q ∈ reg ∨ q = p := by
  unfold regAdd at h
  by_cases hany : reg.any (fun e => e.id == p.id) = true
  · rw [if_pos hany] at h
    rw [List.mem_map] at h
    obtain ⟨e, he, heq⟩ := h
    by_cases h0 : e.id = p.id
    · right
      rw [← heq, if_pos (by simp [h0])]
    · left
      rw [← heq, if_neg (by simp [h0])]
      exact he
  · rw [if_neg hany] at h
    rw [List.mem_append, List.mem_singleton] at h
    exact h

/-- Members after the adoption loop are old members or synthesized
records of listed units. -/
lemma adoptFold_mem (kc : List String) (cs : List ContainerInfo) :
    ∀ r q, q ∈ cs.foldl (adoptStep kc) r →
      q ∈ r ∨ ∃ c ∈ cs, q = synthRecord c := by
  induction cs with
  | nil => intro r q h; exact Or.inl h
  | cons c rest ih =>
    intro r q h
    rcases ih (adoptStep kc r c) q h with h1 | h1
    · unfold adoptStep at h1
      by_cases hc : kc.contains c.cid = true
      · rw [if_pos hc] at h1
        exact Or.inl h1
      · rw [if_neg hc] at h1
        rcases regAdd_mem r (synthRecord c) q h1 with h2 | h2
        · exact Or.inl h2
        · exact Or.inr ⟨c, List.mem_cons_self c rest, h2⟩
    · obtain ⟨c0, hc0, heq⟩ := h1
      exact Or.inr ⟨c0, List.mem_cons_of_mem c hc0, heq⟩

/-- The pruning loop only removes records. -/
lemma pruneFold_subset (containers : List ContainerInfo)
    (ps : List ProxyRecord) :
    ∀ r q, q ∈ ps.foldl (pruneStep containers) r → q ∈ r := by
  induction ps with
  | nil => intro r q h; exact h
  | cons p rest ih =>
    intro r q h
    have h1 := ih (pruneStep containers r p) q h
    unfold pruneStep at h1
    by_cases hc : containers.any (fun c => c.cid == p.containerId) = true
    · rw [if_pos hc] at h1
      exact h1
    · rw [if_neg hc] at h1
      exact (List.mem_filter.mp h1).1

/-- C9: every record present after reconciliation is either a
pre-existing registry record or the record synthesized for some listed
unit, and every synthesized record has restarts 0, exitIp unset and
healthy equal to the unit's running state — adopting a unit resets its
rotate counter. -/
theorem reconcile_synth_fields (containers : List ContainerInfo)
    (reg : Registry) :
    ∀ q ∈ reconcileContainers containers reg,
      q ∈ reg ∨ ∃ c ∈ containers, q = synthRecord c ∧
        q.restarts = 0 ∧ q.exitIp = none ∧ q.healthy = c.running := by
  intro q hq
  unfold reconcileContainers at hq
  have h1 := pruneFold_subset containers (regList reg) _ q hq
  rcases adoptFold_mem _ containers reg q h1 with h2 | h2
  · exact Or.inl h2
  · obtain ⟨c, hc, heq⟩ := h2
    exact Or.inr ⟨c, hc, heq, by rw [heq]; rfl, by rw [heq]; rfl,
      by rw [heq]; rfl⟩

/-- Witness for C9 at a concrete input: reconciling one unit into an
empty registry yields its synthesized record with reset fields. -/
theorem reconcile_synth_fields_witness :
    synthRecord unitX1 ∈ ([] : Registry) ∨ ∃ c ∈ [unitX1],
      synthRecord unitX1 = synthRecord c ∧
      (synthRecord unitX1).restarts = 0 ∧
      (synthRecord unitX1).exitIp = none ∧
      (synthRecord unitX1).healthy = c.running := by
  have hs : reconcileContainers [unitX1] [] = [synthRecord unitX1] := by
    simp [reconcileContainers, regList, List.mergeSort, adoptStep, regAdd,
      pruneStep, unitX1, synthRecord]
  exact reconcile_synth_fields [unitX1] [] (synthRecord unitX1)
    (by rw [hs]; exact List.mem_singleton.mpr rfl)

end Pia
namespace Pia

/-- The createdAt comparison used by the dedupe sort is transitive. -/
lemma byCreated_trans : ∀ a b c : ProxyRecord,
    (fun a b : ProxyRecord => (a.createdAt ≤ b.createdAt : Bool)) a b = true →
    (fun a b : ProxyRecord => (a.createdAt ≤ b.createdAt : Bool)) b c = true →
    (fun a b : ProxyRecord => (a.createdAt ≤ b.createdAt : Bool)) a c = true := by
  intro a b c hab hbc
  simp only [decide_eq_true_eq] at hab hbc ⊢
  omega

/-- The createdAt comparison used by the dedupe sort is total. -/
lemma byCreated_total : ∀ a b : ProxyRecord,
    ((fun a b : ProxyRecord => (a.createdAt ≤ b.createdAt : Bool)) a b ||
     (fun a b : ProxyRecord => (a.createdAt ≤ b.createdAt : Bool)) b a) = true := by
  intro a b
  simp only [Bool.or_eq_true, decide_eq_true_eq]
  omega

/-- In a list sorted by le, the first element satisfying a predicate
is le every element satisfying it. -/
lemma find?_min {α : Type} (le : α → α → Bool) (p : α → Bool) :
    ∀ (l : List α), l.Pairwise (fun a b => le a b = true) →
      ∀ k, l.find? p = some k → ∀ x ∈ l, p x = true →
        x = k ∨ le k x = true := by
  intro l
  induction l with
  | nil => intro _ k hk; cases hk
  | cons hd t ih =>
    intro hpw k hk x hx hpx
    rw [List.pairwise_cons] at hpw
    rw [List.find?_cons] at hk
    cases hph : p hd with
    | true =>
      rw [hph] at hk
      cases hk
      rcases List.mem_cons.mp hx with rfl | hx'
      · exact Or.inl rfl
      · exact Or.inr (hpw.1 x hx')
    | false =>
      rw [hph] at hk
      rcases List.mem_cons.mp hx with rfl | hx'
      · rw [hpx] at hph; cases hph
      · exact ih hpw.2 k hk x hx' hpx

/-- In a list sorted by le, the head is le every element. -/
lemma head?_min {α : Type} (le : α → α → Bool) :
    ∀ (l : List α), l.Pairwise (fun a b => le a b = true) →
      ∀ k, l.head? = some k → ∀ x ∈ l, x = k ∨ le k x = true := by
  intro l
  cases l with
  | nil => intro _ k hk; cases hk
  | cons hd t =>
    intro hpw k hk x hx
    cases hk
    rw [List.pairwise_cons] at hpw
    rcases List.mem_cons.mp hx with rfl | hx'
    · exact Or.inl rfl
    · exact Or.inr (hpw.1 x hx')

/-- The kept record of a nonempty port group exists, belongs to the
group, is the oldest healthy one when any is healthy, and the oldest
overall when none is. -/
lemma keepOf_spec (g : List ProxyRecord) (hne : g ≠ []) :
    ∃ k, keepOf g = some k ∧ k ∈ g ∧
      ((∃ p ∈ g, p.healthy = true) →
        k.healthy = true ∧
        ∀ p ∈ g, p.healthy = true → k.createdAt ≤ p.createdAt) ∧
      ((∀ p ∈ g, p.healthy = false) →
        ∀ p ∈ g, k.createdAt ≤ p.createdAt) := by
  unfold keepOf
  dsimp only
  have hpw := List.sorted_mergeSort byCreated_trans byCreated_total g
  have hperm := List.mergeSort_perm g
    (fun a b : ProxyRecord => (a.createdAt ≤ b.createdAt : Bool))
  cases hf : (g.mergeSort
      (fun a b : ProxyRecord => (a.createdAt ≤ b.createdAt : Bool))).find?
      (fun p => p.healthy) with
  | some k =>
    refine ⟨k, rfl, ?_, ?_, ?_⟩
    · exact hperm.mem_iff.mp (List.mem_of_find?_eq_some hf)
    · intro _
      constructor
      · exact List.find?_some hf
      · intro p hp hph
        have hpmem := hperm.mem_iff.mpr hp
        rcases find?_min _ _ _ hpw k hf p hpmem hph with rfl | hle
        · exact le_refl _
        · simpa using hle
    · intro hall
      exfalso
      have hk := List.find?_some hf
      have := hall k (hperm.mem_iff.mp (List.mem_of_find?_eq_some hf))
      rw [this] at hk
      cases hk
  | none =>
    cases hh : (g.mergeSort
        (fun a b : ProxyRecord => (a.createdAt ≤ b.createdAt : Bool))).head? with
    | none =>
      exfalso
      rw [List.head?_eq_none_iff] at hh
      rw [hh] at hperm
      exact hne (List.Perm.eq_nil hperm.symm)
    | some k =>
      refine ⟨k, rfl, ?_, ?_, ?_⟩
      · exact hperm.mem_iff.mp (List.mem_of_mem_head? (by rw [hh]; exact rfl))
      · rintro ⟨p, hp, hph⟩
        exfalso
        rw [List.find?_eq_none] at hf
        exact hf p (hperm.mem_iff.mpr hp) hph
      · intro _ p hp
        have hpmem := hperm.mem_iff.mpr hp
        rcases head?_min _ _ hpw k hh p hpmem with rfl | hle
        · exact le_refl _
        · simpa using hle

end Pia

namespace Pia

/-- A list containing two distinct elements has length above one. -/
lemma two_mem_lt_length {α : Type} (g : List α) (a b : α)
    (ha : a ∈ g) (hb : b ∈ g) (hne : a ≠ b) : 1 < g.length := by
  match g with
  | [] => cases ha
  | [x] =>
    rw [List.mem_singleton] at ha hb
    exact absurd (ha.trans hb.symm) hne
  | x :: y :: t =>
    simp only [List.length_cons]
    omega

/-- C4: after the dedupe step of the healing path, no two remaining
registry records share a port. -/
theorem dedupe_port_unique (l : List ProxyRecord)
    (hnodup : (l.map (fun p => p.id)).Nodup) :
    ∀ p ∈ dedupeSurvivors l, ∀ q ∈ dedupeSurvivors l,
      p.port = q.port → p = q := by
  intro p hp q hq hpq
  obtain ⟨hpl, hpred⟩ := List.mem_filter.mp hp
  obtain ⟨hql, hqred⟩ := List.mem_filter.mp hq
  simp only [← hpq] at hqred
  by_cases hlen : (l.filter (fun r => r.port == p.port)).length ≤ 1
  · have hpg : p ∈ l.filter (fun r => r.port == p.port) :=
      List.mem_filter.mpr ⟨hpl, by simp⟩
    have hqg : q ∈ l.filter (fun r => r.port == p.port) :=
      List.mem_filter.mpr ⟨hql, by simp [hpq]⟩
    by_contra hne
    exact absurd (two_mem_lt_length _ p q hpg hqg hne) (by omega)
  · have hgne : l.filter (fun r => r.port == p.port) ≠ [] := by
      intro hc
      rw [hc] at hlen
      exact hlen (by simp)
    obtain ⟨k, hk, _, _, _⟩ := keepOf_spec _ hgne
    dsimp only at hpred hqred
    rw [if_neg hlen, hk] at hpred hqred
    have hpk : p.id = k.id := by simpa using hpred
    have hqk : q.id = k.id := by simpa using hqred
    exact List.inj_on_of_nodup_map hnodup hpl hql (hpk.trans hqk.symm)

end Pia

namespace Pia

/-- C5: whenever more than one record shares a port at the dedupe step,
the kept record is the oldest healthy one if any on that port is
healthy and the oldest overall otherwise, and a record on that port
survives dedupe exactly when it is the kept one. -/
theorem dedupe_keep_spec (l : List ProxyRecord) (ρ : Nat)
    (hg : 1 < (l.filter (fun q => q.port == ρ)).length) :
    ∃ k, keepOf (l.filter (fun q => q.port == ρ)) = some k ∧
      k ∈ l.filter (fun q => q.port == ρ) ∧
      ((∃ p ∈ l.filter (fun q => q.port == ρ), p.healthy = true) →
        k.healthy = true ∧ ∀ p ∈ l.filter (fun q => q.port == ρ),
          p.healthy = true → k.createdAt ≤ p.createdAt) ∧
      ((∀ p ∈ l.filter (fun q => q.port == ρ), p.healthy = false) →
        ∀ p ∈ l.filter (fun q => q.port == ρ), k.createdAt ≤ p.createdAt) ∧
      (∀ p ∈ l, p.port = ρ → (p ∈ dedupeSurvivors l ↔ p.id = k.id)) := by
  have hgne : l.filter (fun q => q.port == ρ) ≠ [] := by
    intro hc
    rw [hc] at hg
    exact absurd hg (by simp)
  obtain ⟨k, hk, hkmem, hpos, hneg⟩ := keepOf_spec _ hgne
  refine ⟨k, hk, hkmem, hpos, hneg, ?_⟩
  intro p hpl hpρ
  unfold dedupeSurvivors
  rw [List.mem_filter]
  constructor
  · rintro ⟨_, hpred⟩
    dsimp only at hpred
    simp only [hpρ] at hpred
    rw [if_neg (by omega), hk] at hpred
    simpa using hpred
  · intro hpk
    refine ⟨hpl, ?_⟩
    dsimp only
    simp only [hpρ]
    rw [if_neg (by omega), hk]
    simpa using hpk

/-- Witness for C4 at a concrete input: two records on port 30000 leave
the single survivor recD2, and the uniqueness theorem applies to it. -/
theorem dedupe_port_unique_witness :
    dedupeSurvivors [recD1, recD2] = [recD2] ∧ recD2 = recD2 := by
  have hs : dedupeSurvivors [recD1, recD2] = [recD2] := by
    simp [dedupeSurvivors, keepOf, List.mergeSort, recD1, recD2]
  refine ⟨hs, ?_⟩
  exact dedupe_port_unique [recD1, recD2] (by decide) recD2
    (by rw [hs]; exact List.mem_singleton.mpr rfl) recD2
    (by rw [hs]; exact List.mem_singleton.mpr rfl) rfl

/-- Witness for C5 at a concrete input: of a healthy and an unhealthy
record sharing port 30000, exactly the healthy one (recD2) remains. -/
theorem dedupe_keep_spec_witness :
    dedupeSurvivors [recD1, recD2] = [recD2] ∧
    ∃ k, keepOf ([recD1, recD2].filter (fun q => q.port == 30000)) = some k ∧
      k ∈ [recD1, recD2].filter (fun q => q.port == 30000) ∧
      ((∃ p ∈ [recD1, recD2].filter (fun q => q.port == 30000),
          p.healthy = true) →
        k.healthy = true ∧
        ∀ p ∈ [recD1, recD2].filter (fun q => q.port == 30000),
          p.healthy = true → k.createdAt ≤ p.createdAt) ∧
      ((∀ p ∈ [recD1, recD2].filter (fun q => q.port == 30000),
          p.healthy = false) →
        ∀ p ∈ [recD1, recD2].filter (fun q => q.port == 30000),
          k.createdAt ≤ p.createdAt) ∧
      (∀ p ∈ [recD1, recD2], p.port = 30000 →
        (p ∈ dedupeSurvivors [recD1, recD2] ↔ p.id = k.id)) :=
  ⟨by simp [dedupeSurvivors, keepOf, List.mergeSort, recD1, recD2],
   dedupe_keep_spec [recD1, recD2] 30000 (by decide)⟩

end Pia
namespace Pia

/-- A probe of one id never touches another id's record. -/
lemma checkV2_get_other (probe : String → ProbeEnvV2) (reg : Registry)
    (j id : String) (hne : j ≠ id) :
    regGet (V2.checkProxyHealth probe reg j).2 id = regGet reg id := by
  unfold V2.checkProxyHealth
  cases regGet reg j with
  | none => rfl
  | some p =>
    dsimp only
    cases (probe j).thrown with
    | some m => exact regGet_regUpdate_other reg j id _ hne (fun q hq => hq)
    | none =>
      dsimp only
      cases (probe j).proxyIp with
      | some ip => exact regGet_regUpdate_other reg j id _ hne (fun q hq => hq)
      | none =>
        dsimp only
        cases (probe j).containerIp with
        | none => exact regGet_regUpdate_other reg j id _ hne (fun q hq => hq)
        | some ip => exact regGet_regUpdate_other reg j id _ hne (fun q hq => hq)

/-- A successful rotate of one id never touches another id's record,
provided the fresh uuid of its recreate path is not that id. -/
lemma rotateV8_get_other (env0 : RotateEnv) (cfg : Config) (reg : Registry)
    (j id : String) (pr : ProxyRecord) (reg1 : Registry) (hne : j ≠ id)
    (hfresh : env0.create.newUuid ≠ id)
    (hrot : V8.rotateProxy env0 cfg reg j = .ok (pr, reg1)) :
    regGet reg1 id = regGet reg id := by
  unfold V8.rotateProxy at hrot
  cases hg : regGet reg j with
  | none => rw [hg] at hrot; exact absurd hrot (by simp)
  | some pj =>
    rw [hg] at hrot
    dsimp only at hrot
    cases hre : env0.restart with
    | failed => rw [hre] at hrot; exact absurd hrot (by simp)
    | ok =>
      rw [hre] at hrot
      dsimp only at hrot
      cases hrot
      exact regGet_regUpdate_other reg j id _ hne (fun q hq => hq)
    | notFound =>
      rw [hre] at hrot
      dsimp only at hrot
      cases hcr : createProxy env0.create cfg reg
          { country := pj.country, city := pj.city,
            notes := pj.notes, port := some pj.port } with
      | error e => rw [hcr] at hrot; exact absurd hrot (by simp)
      | ok pr0 =>
        rw [hcr] at hrot
        dsimp only at hrot
        cases hrot
        have hf := createProxy_ok_fields _ _ _ _ _ _ hcr
        rw [regGet_regRemove_other _ _ _ hne, hf.2.2.2.2.2.2.2.2.1,
          regGet_regAdd_other]
        rw [hf.2.2.2.1]
        exact hfresh

end Pia

namespace Pia

/-- One auto-heal step appends at most one action: a skip, or a rotate
whose recorded restarts value is below the ceiling. -/
lemma autoHealStep_trace_shape (env : HealEnv) (cfg : Config) (reg : Registry)
    (trace : List HealAction) (j : String) :
    (autoHealStep env cfg (reg, trace) j).2 = trace ∨
    ∃ x, (autoHealStep env cfg (reg, trace) j).2 = trace ++ [x] ∧
      ((∃ s, x = .skipped s) ∨ ∃ s n, x = .rotated s n ∧ n < 3) := by
  unfold autoHealStep
  dsimp only
  cases hg : regGet reg j with
  | none => exact Or.inl rfl
  | some pj =>
    dsimp only
    by_cases hh : pj.healthy = true
    · rw [if_pos hh]
      exact Or.inl rfl
    · rw [if_neg hh]
      by_cases hcap : 3 ≤ pj.restarts
      · rw [if_pos hcap]
        exact Or.inr ⟨.skipped j, rfl, Or.inl ⟨j, rfl⟩⟩
      · rw [if_neg hcap]
        cases V8.rotateProxy (env.rotate j) cfg reg j with
        | error e =>
          exact Or.inr ⟨.rotated j pj.restarts, rfl,
            Or.inr ⟨j, pj.restarts, rfl, by omega⟩⟩
        | ok pr =>
          exact Or.inr ⟨.rotated j pj.restarts, rfl,
            Or.inr ⟨j, pj.restarts, rfl, by omega⟩⟩

/-- One auto-heal step leaves a capped unhealthy record untouched,
never emits a rotate for it, and emits exactly the skip when that
record is the considered id. -/
lemma autoHealStep_capped (env : HealEnv) (cfg : Config) (reg : Registry)
    (trace : List HealAction) (j id : String) (r : ProxyRecord)
    (hget : regGet reg id = some r) (hun : r.healthy = false)
    (hcap : 3 ≤ r.restarts)
    (hfresh : ∀ s : String, (env.rotate s).create.newUuid ≠ id) :
    regGet (autoHealStep env cfg (reg, trace) j).1 id = some r ∧
    ((autoHealStep env cfg (reg, trace) j).2 = trace ∨
     ∃ x, (autoHealStep env cfg (reg, trace) j).2 = trace ++ [x] ∧
       ∀ n, x ≠ .rotated id n) ∧
    (j = id → (autoHealStep env cfg (reg, trace) j).2 =
      trace ++ [.skipped id]) := by
  unfold autoHealStep
  dsimp only
  by_cases hj : j = id
  · subst hj
    rw [hget]
    dsimp only
    rw [if_neg (by rw [hun]; exact Bool.false_ne_true), if_pos hcap]
    exact ⟨hget, Or.inr ⟨.skipped j, rfl, fun n hc => by cases hc⟩,
      fun _ => rfl⟩
  · cases hg : regGet reg j with
    | none => exact ⟨hget, Or.inl rfl, fun hc => absurd hc hj⟩
    | some pj =>
      dsimp only
      by_cases hh : pj.healthy = true
      · rw [if_pos hh]
        exact ⟨hget, Or.inl rfl, fun hc => absurd hc hj⟩
      · rw [if_neg hh]
        by_cases hc3 : 3 ≤ pj.restarts
        · rw [if_pos hc3]
          refine ⟨hget, Or.inr ⟨.skipped j, rfl, fun n hc => by cases hc⟩,
            fun hc => absurd hc hj⟩
        · rw [if_neg hc3]
          cases hrot : V8.rotateProxy (env.rotate j) cfg reg j with
          | error e =>
            refine ⟨hget, Or.inr ⟨.rotated j pj.restarts, rfl, ?_⟩,
              fun hc => absurd hc hj⟩
            intro n hc
            cases hc
            exact hj rfl
          | ok pr =>
            refine ⟨?_, Or.inr ⟨.rotated j pj.restarts, rfl, ?_⟩,
              fun hc => absurd hc hj⟩
            · rw [checkV2_get_other env.probe pr.2 j id hj,
                rotateV8_get_other (env.rotate j) cfg reg j id pr.1 pr.2 hj
                  (hfresh j) (by rw [← hrot])]
              exact hget
            · intro n hc
              cases hc
              exact hj rfl

end Pia

namespace Pia

/-- The cycle only appends to the action trace. -/
lemma healFold_trace_mono (env : HealEnv) (cfg : Config) :
    ∀ (ids : List String) (reg : Registry) (trace : List HealAction)
      (a : HealAction), a ∈ trace →
      a ∈ (ids.foldl (autoHealStep env cfg) (reg, trace)).2 := by
  intro ids
  induction ids with
  | nil => intro reg trace a ha; exact ha
  | cons j rest ih =>
    intro reg trace a ha
    have hstep := autoHealStep_trace_shape env cfg reg trace j
    have hmem : a ∈ (autoHealStep env cfg (reg, trace) j).2 := by
      rcases hstep with h | ⟨x, hx, _⟩
      · rw [h]; exact ha
      · rw [hx]; exact List.mem_append_left _ ha
    exact ih (autoHealStep env cfg (reg, trace) j).1
      (autoHealStep env cfg (reg, trace) j).2 a hmem

/-- Every action a cycle appends is a skip or a below-ceiling
rotate. -/
lemma healFold_trace (env : HealEnv) (cfg : Config) :
    ∀ (ids : List String) (reg : Registry) (trace : List HealAction)
      (a : HealAction), a ∈ (ids.foldl (autoHealStep env cfg) (reg, trace)).2 →
      a ∈ trace ∨ (∃ s, a = .skipped s) ∨
        ∃ s n, a = .rotated s n ∧ n < 3 := by
  intro ids
  induction ids with
  | nil => intro reg trace a ha; exact Or.inl ha
  | cons j rest ih =>
    intro reg trace a ha
    rcases ih (autoHealStep env cfg (reg, trace) j).1
        (autoHealStep env cfg (reg, trace) j).2 a ha with h | h
    · rcases autoHealStep_trace_shape env cfg reg trace j with hs | ⟨x, hx, hxs⟩
      · rw [hs] at h
        exact Or.inl h
      · rw [hx] at h
        rcases List.mem_append.mp h with h1 | h1
        · exact Or.inl h1
        · rw [List.mem_singleton] at h1
          subst h1
          exact Or.inr hxs
    · exact Or.inr h

/-- Over a whole cycle, a capped unhealthy record is preserved
unchanged, its consideration is logged as a skip, and no rotate for it
is ever appended. -/
lemma healFold_capped (env : HealEnv) (cfg : Config) (id : String)
    (r : ProxyRecord) (hun : r.healthy = false) (hcap : 3 ≤ r.restarts)
    (hfresh : ∀ s : String, (env.rotate s).create.newUuid ≠ id) :
    ∀ (ids : List String) (reg : Registry) (trace : List HealAction),
      regGet reg id = some r →
      regGet (ids.foldl (autoHealStep env cfg) (reg, trace)).1 id = some r ∧
      (id ∈ ids →
        HealAction.skipped id ∈ (ids.foldl (autoHealStep env cfg) (reg, trace)).2) ∧
      (∀ n, HealAction.rotated id n ∈
          (ids.foldl (autoHealStep env cfg) (reg, trace)).2 →
        HealAction.rotated id n ∈ trace) := by
  intro ids
  induction ids with
  | nil =>
    intro reg trace hget
    exact ⟨hget, fun hc => absurd hc (List.not_mem_nil id), fun n hn => hn⟩
  | cons j rest ih =>
    intro reg trace hget
    obtain ⟨hg1, hg2, hg3⟩ :=
      autoHealStep_capped env cfg reg trace j id r hget hun hcap hfresh
    obtain ⟨ih1, ih2, ih3⟩ := ih (autoHealStep env cfg (reg, trace) j).1
      (autoHealStep env cfg (reg, trace) j).2 hg1
    refine ⟨ih1, ?_, ?_⟩
    · intro hid
      rcases List.mem_cons.mp hid with rfl | hid'
      · refine healFold_trace_mono env cfg rest
          (autoHealStep env cfg (reg, trace) id).1
          (autoHealStep env cfg (reg, trace) id).2 _ ?_
        rw [hg3 rfl]
        exact List.mem_append_right _ (List.mem_singleton.mpr rfl)
      · exact ih2 hid'
    · intro n hn
      have := ih3 n hn
      rcases hg2 with hs | ⟨x, hx, hxne⟩
      · rw [hs] at this
        exact this
      · rw [hx] at this
        rcases List.mem_append.mp this with h1 | h1
        · exact h1
        · rw [List.mem_singleton] at h1
          exact absurd h1.symm (hxne n)

end Pia

namespace Pia

/-- C3: in every auto-heal cycle, rotate is only invoked on records
whose restarts were below 3 when considered, the healer never removes
anything, and a proxy at or above the ceiling is skipped with a log
action, never rotated, and its record survives the cycle unchanged. -/
theorem autoHealCycle_ceiling (env : HealEnv) (cfg : Config) (reg : Registry)
    (ids : List String) :
    (∀ s n, HealAction.rotated s n ∈ (autoHealCycle env cfg reg ids).2 →
      n < 3) ∧
    (∀ s, HealAction.removed s ∉ (autoHealCycle env cfg reg ids).2) ∧
    (∀ id r, regGet reg id = some r → r.healthy = false → 3 ≤ r.restarts →
      (∀ s, (env.rotate s).create.newUuid ≠ id) →
      regGet (autoHealCycle env cfg reg ids).1 id = some r ∧
      (id ∈ ids →
        HealAction.skipped id ∈ (autoHealCycle env cfg reg ids).2) ∧
      (∀ n, HealAction.rotated id n ∉ (autoHealCycle env cfg reg ids).2)) := by
  refine ⟨?_, ?_, ?_⟩
  · intro s n hmem
    rcases healFold_trace env cfg ids reg [] _ hmem with h | ⟨s0, h⟩ | ⟨s0, n0, h, hlt⟩
    · cases h
    · cases h
    · cases h
      exact hlt
  · intro s hmem
    rcases healFold_trace env cfg ids reg [] _ hmem with h | ⟨s0, h⟩ | ⟨s0, n0, h, hlt⟩
    · cases h
    · cases h
    · cases h
  · intro id r hget hun hcap hfresh
    obtain ⟨h1, h2, h3⟩ := healFold_capped env cfg id r hun hcap hfresh ids reg [] hget
    exact ⟨h1, h2, fun n hn => absurd (h3 n hn) (List.not_mem_nil _)⟩

/-- Witness for C3 at a concrete input: the capped record recCapped is
skipped, kept unchanged, and never rotated. -/
theorem autoHealCycle_ceiling_witness :
    regGet (autoHealCycle healEnvW cfgW [recCapped] ["z"]).1 "z" =
      some recCapped ∧
    ("z" ∈ ["z"] →
      HealAction.skipped "z" ∈ (autoHealCycle healEnvW cfgW [recCapped] ["z"]).2) ∧
    (∀ n, HealAction.rotated "z" n ∉
      (autoHealCycle healEnvW cfgW [recCapped] ["z"]).2) :=
  (autoHealCycle_ceiling healEnvW cfgW [recCapped] ["z"]).2.2 "z" recCapped
    rfl rfl (by decide) (fun s => show ("b" : String) ≠ "z" by decide)

end Pia

namespace Pia

/-- Permuted lists agree on contains. -/
lemma contains_eq_of_perm {α : Type} [BEq α] [LawfulBEq α] {l1 l2 : List α}
    (h : l1.Perm l2) (x : α) : l1.contains x = l2.contains x := by
  by_cases hx : x ∈ l2
  · have h1 : l1.contains x = true := by simp [h.mem_iff.mpr hx]
    have h2 : l2.contains x = true := by simp [hx]
    rw [h1, h2]
  · have hx1 : x ∉ l1 := fun hc => hx (h.mem_iff.mp hc)
    have h1 : l1.contains x = false := by simp [hx1]
    have h2 : l2.contains x = false := by simp [hx]
    rw [h1, h2]

/-- Adding a record whose id is fresh appends it. -/
lemma regAdd_append (reg : Registry) (p : ProxyRecord)
    (hp : p.id ∉ reg.map (fun q => q.id)) : regAdd reg p = reg ++ [p] := by
  unfold regAdd
  rw [if_neg]
  intro hc
  rw [List.any_eq_true] at hc
  obtain ⟨q, hq, hqe⟩ := hc
  apply hp
  rw [List.mem_map]
  exact ⟨q, hq, by simpa using hqe⟩

/-- When the synthesized ids of the adopted units are fresh and
pairwise distinct, the adoption loop appends exactly the synthesized
records of the unmatched units. -/
lemma adoptFold_eq (kc : List String) :
    ∀ (cs : List ContainerInfo) (r : Registry),
      (∀ c ∈ cs, kc.contains c.cid = false →
        (synthRecord c).id ∉ r.map (fun q => q.id)) →
      ((cs.filter (fun c => !kc.contains c.cid)).map
        (fun c => (synthRecord c).id)).Nodup →
      cs.foldl (adoptStep kc) r =
        r ++ (cs.filter (fun c => !kc.contains c.cid)).map synthRecord := by
  intro cs
  induction cs with
  | nil => intro r _ _; simp
  | cons c rest ih =>
    intro r hfresh hdist
    cases hcc : kc.contains c.cid with
    | true =>
      have hcm : c.cid ∈ kc := by simpa using hcc
      rw [List.filter_cons_of_neg (by simp [hcm])] at hdist ⊢
      rw [List.foldl_cons,
        show adoptStep kc r c = r by unfold adoptStep; rw [if_pos hcc]]
      exact ih r (fun c' hc' => hfresh c' (List.mem_cons_of_mem c hc')) hdist
    | false =>
      have hcf : kc.contains c.cid = false := hcc
      have hcm : c.cid ∉ kc := by simpa using hcc
      rw [List.filter_cons_of_pos (by simp [hcm])] at hdist ⊢
      rw [List.foldl_cons,
        show adoptStep kc r c = r ++ [synthRecord c] by
          unfold adoptStep
          rw [if_neg (by rw [hcc]; exact Bool.false_ne_true)]
          exact regAdd_append r (synthRecord c)
            (hfresh c (List.mem_cons_self c rest) hcf)]
      rw [List.map_cons] at hdist
      rw [List.nodup_cons] at hdist
      rw [ih (r ++ [synthRecord c]) ?_ hdist.2]
      · rw [List.map_cons, List.append_assoc]
        rfl
      · intro c' hc' hcf2 hmem
        rw [List.map_append, List.mem_append] at hmem
        rcases hmem with hm | hm
        · exact hfresh c' (List.mem_cons_of_mem c hc') hcf2 hm
        · rw [show List.map (fun q => q.id) [synthRecord c] =
              [(synthRecord c).id] from rfl, List.mem_singleton] at hm
          apply hdist.1
          rw [← hm, List.mem_map]
          refine ⟨c', List.mem_filter.mpr ⟨hc', by simpa using hcf2⟩, rfl⟩

end Pia

namespace Pia

/-- A record whose id no removal targets survives the pruning loop. -/
lemma pruneFold_preserves (containers : List ContainerInfo) :
    ∀ (ps : List ProxyRecord) (r : Registry) (q : ProxyRecord), q ∈ r →
      (∀ p ∈ ps, (containers.any (fun c => c.cid == p.containerId)) = false →
        p.id ≠ q.id) →
      q ∈ ps.foldl (pruneStep containers) r := by
  intro ps
  induction ps with
  | nil => intro r q hq _; exact hq
  | cons p rest ih =>
    intro r q hq hsafe
    rw [List.foldl_cons]
    apply ih
    · unfold pruneStep
      cases hc : containers.any (fun c => c.cid == p.containerId) with
      | true => rw [if_pos rfl]; exact hq
      | false =>
        rw [if_neg Bool.false_ne_true]
        unfold regRemove
        rw [List.mem_filter]
        refine ⟨hq, ?_⟩
        have := hsafe p (List.mem_cons_self p rest) hc
        simp only [bne_iff_ne, ne_eq]
        exact fun hcq => this hcq.symm
    · exact fun p' hp' => hsafe p' (List.mem_cons_of_mem p hp')

/-- If some snapshot record with a vanished container carries id i, no
record with id i survives the pruning loop. -/
lemma pruneFold_removes (containers : List ContainerInfo) :
    ∀ (ps : List ProxyRecord) (r : Registry) (i : String),
      (∃ p ∈ ps, (containers.any (fun c => c.cid == p.containerId)) = false ∧
        p.id = i) →
      ∀ q ∈ ps.foldl (pruneStep containers) r, q.id ≠ i := by
  intro ps
  induction ps with
  | nil => intro r i hw q hq; obtain ⟨p, hp, _⟩ := hw; cases hp
  | cons p rest ih =>
    intro r i hw q hq
    obtain ⟨p0, hp0, hcond, hid⟩ := hw
    rcases List.mem_cons.mp hp0 with rfl | hp0'
    · rw [List.foldl_cons] at hq
      have hq' := pruneFold_subset containers rest _ q hq
      unfold pruneStep at hq'
      rw [if_neg (by rw [hcond]; exact Bool.false_ne_true)] at hq'
      unfold regRemove at hq'
      have := (List.mem_filter.mp hq').2
      rw [hid] at this
      simpa using this
    · exact ih (pruneStep containers r p) i ⟨p0, hp0', hcond, hid⟩ q hq

/-- The adoption loop is the identity when every unit is already
known. -/
lemma adoptFold_id (kc : List String) :
    ∀ (cs : List ContainerInfo) (r : Registry),
      (∀ c ∈ cs, kc.contains c.cid = true) →
      cs.foldl (adoptStep kc) r = r := by
  intro cs
  induction cs with
  | nil => intro r _; rfl
  | cons c rest ih =>
    intro r hall
    rw [List.foldl_cons,
      show adoptStep kc r c = r by
        unfold adoptStep
        rw [if_pos (hall c (List.mem_cons_self c rest))]]
    exact ih r (fun c' hc' => hall c' (List.mem_cons_of_mem c hc'))

/-- The pruning loop is the identity when every record's container is
still listed. -/
lemma pruneFold_id (containers : List ContainerInfo) :
    ∀ (ps : List ProxyRecord) (r : Registry),
      (∀ p ∈ ps, (containers.any (fun c => c.cid == p.containerId)) = true) →
      ps.foldl (pruneStep containers) r = r := by
  intro ps
  induction ps with
  | nil => intro r _; rfl
  | cons p rest ih =>
    intro r hall
    rw [List.foldl_cons,
      show pruneStep containers r p = r by
        unfold pruneStep
        rw [if_pos (hall p (List.mem_cons_self p rest))]]
    exact ih r (fun p' hp' => hall p' (List.mem_cons_of_mem p hp'))

end Pia

namespace Pia

/-- C7 (amended): reconcile is idempotent — a second run with the same
unit list changes nothing — provided registry ids are unique, the ids
synthesized for units being adopted are pairwise distinct, and none of
them collides with the id of an existing registry record.  Without
those side conditions the keyed add can overwrite and the stale-
snapshot removal can delete a freshly adopted record, making a second
run differ (see the counterexample). -/
theorem reconcile_idempotent (containers : List ContainerInfo) (reg : Registry)
    (hnodup : (reg.map (fun p => p.id)).Nodup)
    (hdist : ((containers.filter (fun c =>
        !((reg.map (fun p => p.containerId)).contains c.cid))).map
        (fun c => (synthRecord c).id)).Nodup)
    (hdisj : ∀ c ∈ containers,
      (reg.map (fun p => p.containerId)).contains c.cid = false →
      (synthRecord c).id ∉ reg.map (fun p => p.id)) :
    reconcileContainers containers (reconcileContainers containers reg) =
      reconcileContainers containers reg := by
  have hperm : (regList reg).Perm reg := List.mergeSort_perm reg _
  set kc := (regList reg).map (fun p => p.containerId) with hkc
  have hkceq : ∀ x, kc.contains x =
      (reg.map (fun p => p.containerId)).contains x :=
    fun x => contains_eq_of_perm (hperm.map _) x
  have hfilter_eq : containers.filter (fun c => !kc.contains c.cid) =
      containers.filter (fun c =>
        !((reg.map (fun p => p.containerId)).contains c.cid)) := by
    apply List.filter_congr
    intro c _
    rw [hkceq c.cid]
  have hdist' : ((containers.filter (fun c => !kc.contains c.cid)).map
      (fun c => (synthRecord c).id)).Nodup := by
    rw [hfilter_eq]; exact hdist
  have hdisj' : ∀ c ∈ containers, kc.contains c.cid = false →
      (synthRecord c).id ∉ reg.map (fun p => p.id) :=
    fun c hc hcf => hdisj c hc (by rw [← hkceq]; exact hcf)
  have hreg1 : containers.foldl (adoptStep kc) reg =
      reg ++ (containers.filter (fun c => !kc.contains c.cid)).map synthRecord :=
    adoptFold_eq kc containers reg hdisj' hdist'
  set reg' := reconcileContainers containers reg with hregp
  have hregDef : reg' = (regList reg).foldl (pruneStep containers)
      (containers.foldl (adoptStep kc) reg) := rfl
  have hF1 : ∀ q ∈ reg', q.containerId ∈ containers.map (fun c => c.cid) := by
    intro q hq
    rw [hregDef] at hq
    have hq1 := pruneFold_subset containers (regList reg) _ q hq
    rw [hreg1] at hq1
    rcases List.mem_append.mp hq1 with hqreg | hqsynth
    · by_contra hnc
      have hany : (containers.any (fun c => c.cid == q.containerId)) = false := by
        cases hval : containers.any (fun c => c.cid == q.containerId) with
        | false => rfl
        | true =>
          exfalso
          rw [List.any_eq_true] at hval
          obtain ⟨c, hcmem, hce⟩ := hval
          exact hnc (List.mem_map.mpr ⟨c, hcmem, by simpa using hce⟩)
      have := pruneFold_removes containers (regList reg) _ q.id
        ⟨q, hperm.mem_iff.mpr hqreg, hany, rfl⟩ q hq
      exact this rfl
    · rw [List.mem_map] at hqsynth
      obtain ⟨c, hcf, hqe⟩ := hqsynth
      have hcmem := (List.mem_filter.mp hcf).1
      rw [← hqe]
      exact List.mem_map.mpr ⟨c, hcmem, rfl⟩
  have hF2 : ∀ c ∈ containers, ∃ q ∈ reg', q.containerId = c.cid := by
    intro c hc
    cases hm : (reg.map (fun p => p.containerId)).contains c.cid with
    | true =>
      have hmem : c.cid ∈ reg.map (fun p => p.containerId) := by simpa using hm
      rw [List.mem_map] at hmem
      obtain ⟨p, hp, hpc⟩ := hmem
      refine ⟨p, ?_, hpc⟩
      rw [hregDef]
      apply pruneFold_preserves
      · rw [hreg1]
        exact List.mem_append_left _ hp
      · intro p' hp' hcond hpid
        have hpreg := hperm.mem_iff.mp hp'
        have heq : p' = p := List.inj_on_of_nodup_map hnodup hpreg hp hpid
        rw [heq] at hcond
        rw [← Bool.not_eq_true, List.any_eq_true] at hcond
        exact hcond ⟨c, hc, by simp [hpc]⟩
    | false =>
      have hkcf : kc.contains c.cid = false := by rw [hkceq]; exact hm
      refine ⟨synthRecord c, ?_, rfl⟩
      rw [hregDef]
      apply pruneFold_preserves
      · rw [hreg1]
        apply List.mem_append_right
        exact List.mem_map.mpr
          ⟨c, List.mem_filter.mpr ⟨hc, by rw [hkcf]; rfl⟩, rfl⟩
      · intro p' hp' hcond hpid
        have hpreg := hperm.mem_iff.mp hp'
        apply hdisj' c hc hkcf
        rw [← hpid]
        exact List.mem_map.mpr ⟨p', hpreg, rfl⟩
  have hperm2 : (regList reg').Perm reg' := List.mergeSort_perm reg' _
  have hkc2 : ∀ c ∈ containers,
      ((regList reg').map (fun p => p.containerId)).contains c.cid = true := by
    intro c hc
    obtain ⟨q, hq, hqc⟩ := hF2 c hc
    have hmem : c.cid ∈ (regList reg').map (fun p => p.containerId) :=
      List.mem_map.mpr ⟨q, hperm2.mem_iff.mpr hq, hqc⟩
    simp [hmem]
  have hany2 : ∀ p ∈ regList reg',
      (containers.any (fun c => c.cid == p.containerId)) = true := by
    intro p hp
    have hmem := hF1 p (hperm2.mem_iff.mp hp)
    rw [List.mem_map] at hmem
    obtain ⟨c, hc, hce⟩ := hmem
    rw [List.any_eq_true]
    exact ⟨c, hc, by simp [hce]⟩
  calc reconcileContainers containers reg'
      = (regList reg').foldl (pruneStep containers)
          (containers.foldl
            (adoptStep ((regList reg').map (fun p => p.containerId))) reg') := rfl
    _ = (regList reg').foldl (pruneStep containers) reg' := by
        rw [adoptFold_id _ containers reg' hkc2]
    _ = reg' := pruneFold_id containers (regList reg') reg' hany2

end Pia

namespace Pia

/-- C7 counterexample: with two labeled units sharing the id label X
over an empty registry, the first reconcile keeps the second unit's
synthesized record but a second reconcile replaces it with the first
unit's, so reconcile twice differs from reconcile once. -/
theorem reconcile_not_idempotent_cex :
    reconcileContainers [unitX1, unitX2]
        (reconcileContainers [unitX1, unitX2] []) ≠
      reconcileContainers [unitX1, unitX2] [] := by
  have e1 : reconcileContainers [unitX1, unitX2] [] = [synthRecord unitX2] := by
    simp [reconcileContainers, regList, List.mergeSort, adoptStep, regAdd,
      pruneStep, unitX1, unitX2, synthRecord]
  have e2 : reconcileContainers [unitX1, unitX2] [synthRecord unitX2] =
      [synthRecord unitX1] := by
    simp [reconcileContainers, regList, List.mergeSort, adoptStep, regAdd,
      pruneStep, regRemove, unitX1, unitX2, synthRecord, regGet]
  rw [e1, e2]
  decide

/-- Witness for C7 at a concrete input: one unit over the empty
registry reconciles idempotently. -/
theorem reconcile_idempotent_witness :
    reconcileContainers [unitX1] (reconcileContainers [unitX1] []) =
      reconcileContainers [unitX1] [] :=
  reconcile_idempotent [unitX1] [] (by decide) (by decide) (by decide)

end Pia
